import Mathlib

/-!
Shallow embedding of the SuperCANBus pub/sub protocol core
(src/CANPubSub.cpp, classes CANPubSubBase / CANPubSubBroker /
CANPubSubClient) in Lean 4.

Conventions of the embedding:
* machine bytes and ids are `Nat` (masking / truncation is written out
  explicitly where the C++ integer conversions matter);
* Arduino `String` values are byte lists (`List Nat`);
* the fixed-capacity C arrays with a separate element count
  (`_subscriptions` + `_subTableSize`, `subscribers` + `subCount`, …) are
  `List`s, the count being the list length; the capacity checks of the
  source are kept verbatim;
* CAN I/O is made explicit: inbound frames are values handed to the
  handlers, outbound frames are collected in result lists;
* `millis()` is a `Nat` parameter (`now`) where the code reads the clock.
-/

/-! ### Protocol constants (CANPubSub.h) -/

def CAN_PS_SUBSCRIBE : Nat := 0x01
def CAN_PS_UNSUBSCRIBE : Nat := 0x02
def CAN_PS_PUBLISH : Nat := 0x03
def CAN_PS_TOPIC_DATA : Nat := 0x04
def CAN_PS_DIRECT_MSG : Nat := 0x05
def CAN_PS_PING : Nat := 0x06
def CAN_PS_PONG : Nat := 0x07
def CAN_PS_ACK : Nat := 0x08
def CAN_PS_ID_REQUEST : Nat := 0xFF
def CAN_PS_ID_RESPONSE : Nat := 0xFE

/-- Modelled from the spec: the message-type constants `CAN_PS_PEER_MSG`
(0x09) and `CAN_PS_SUB_RESTORE` (0x0A) are used by src/CANPubSub.cpp but the
header revision shipped under src/ predates them; the values are taken from
the spec's message-type table (§4.2). -/
def CAN_PS_PEER_MSG : Nat := 0x09

/-- Modelled from the spec: see `CAN_PS_PEER_MSG`. -/
def CAN_PS_SUB_RESTORE : Nat := 0x0A

def CAN_PS_BROKER_ID : Nat := 0x00
def CAN_PS_UNASSIGNED_ID : Nat := 0xFF

def MAX_SUBSCRIPTIONS : Nat := 20
def MAX_SUBSCRIBERS_PER_TOPIC : Nat := 10
def MAX_CLIENT_TOPICS : Nat := 10
def MAX_CLIENT_MAPPINGS : Nat := 50
def MAX_SERIAL_LENGTH : Nat := 32
def MAX_STORED_SUBS_PER_CLIENT : Nat := 10

def CAN_FRAME_DATA_SIZE : Nat := 8
def MAX_EXTENDED_MSG_SIZE : Nat := 128
def EXTENDED_MSG_TIMEOUT : Nat := 1000

/-! ### Topic hashing (CANPubSubBase::hashTopic) -/

/-- `hashTopic`: `hash = hash * 31 + byte` over the topic bytes in a
`uint16_t`, i.e. modulo 2^16 (CANPubSub.cpp lines 12-18). -/
def hashTopic (topic : List Nat) : Nat :=
  topic.foldl (fun hash c => (hash * 31 + c) % 65536) 0

/-! ### Frames -/

/-- One extended CAN frame: 29-bit id plus up to 8 data bytes. -/
structure ExtFrame where
  extId : Nat
  data : List Nat
deriving DecidableEq

/-- A CAN frame as seen by `handleMessage`: either a standard frame (the
11-bit packet id carries the message type) or an extended frame. -/
inductive Frame where
  | std (id : Nat) (data : List Nat)
  | ext (f : ExtFrame)
deriving DecidableEq

/-! ### Extended-message codec (CANPubSubBase) -/

/-- `sendExtendedMessage` (CANPubSub.cpp lines 47-76): a payload of at most
8 bytes goes out as a single standard frame with the message type as packet
id; a longer payload is split into `totalFrames = ceil(length/8)` extended
frames whose 29-bit id is `(msgType << 21) | (frameSeq << 13) | totalFrames`.
`totalFrames` is a `uint8_t` in the source, hence the `% 256`. -/
def sendExtendedMessage (msgType : Nat) (data : List Nat) : List Frame :=
  if data.length ≤ CAN_FRAME_DATA_SIZE then
    [Frame.std msgType data]
  else
    let totalFrames := ((data.length + CAN_FRAME_DATA_SIZE - 1) / CAN_FRAME_DATA_SIZE) % 256
    (List.range totalFrames).map (fun frame =>
      Frame.ext ⟨((msgType <<< 21) ||| (frame <<< 13)) ||| totalFrames,
                 (data.drop (frame * CAN_FRAME_DATA_SIZE)).take CAN_FRAME_DATA_SIZE⟩)

/-- `ExtendedMessageBuffer` (CANPubSub.h): `receivedSize` is the length of
`buffer`. -/
structure ExtBuffer where
  msgType : Nat
  senderId : Nat
  buffer : List Nat
  totalSize : Nat
  lastFrameTime : Nat
  active : Bool
deriving DecidableEq

/-- The all-zero buffer produced by `memset(&_extBuffer, 0, ...)`. -/
def emptyExtBuffer : ExtBuffer := ⟨0, 0, [], 0, 0, false⟩

/-- A message handed to `onExtendedMessageComplete`. -/
structure CompletedMsg where
  msgType : Nat
  senderId : Nat
  data : List Nat
deriving DecidableEq

/-- `processExtendedFrame` (CANPubSub.cpp lines 78-131).  Decodes the
extended id (`uint8_t totalFrames = extId & 0x1FFF` truncates to 8 bits),
discards a timed-out buffer, re-initialises on `frameSeq == 0` taking the
first payload byte as `senderId`, drops frames that do not match the active
buffer, appends payload bytes while `receivedSize < 128`, and on
`frameSeq == totalFrames - 1` (an `int` comparison in C++, hence the cast
to `Int`) completes the message and resets the buffer. -/
def processExtendedFrame (now : Nat) (buf : ExtBuffer) (f : ExtFrame) :
    ExtBuffer × Option CompletedMsg :=
  let msgType := (f.extId >>> 21) &&& 0xFF
  let frameSeq := (f.extId >>> 13) &&& 0xFF
  let totalFrames := (f.extId &&& 0x1FFF) % 256
  let buf0 := if buf.active ∧ EXTENDED_MSG_TIMEOUT < now - buf.lastFrameTime then
    emptyExtBuffer else buf
  let buf1 :=
    if frameSeq = 0 then
      match f.data with
      | [] => { emptyExtBuffer with
                  msgType, totalSize := totalFrames * CAN_FRAME_DATA_SIZE, active := true }
      | b :: _ => { emptyExtBuffer with
                      msgType, totalSize := totalFrames * CAN_FRAME_DATA_SIZE,
                      active := true, senderId := b }
    else buf0
  let rest := if frameSeq = 0 then f.data.tail else f.data
  if buf1.active = false ∨ buf1.msgType ≠ msgType then (buf1, none)
  else
    let buf2 := { buf1 with
                    buffer := buf1.buffer ++ rest.take (MAX_EXTENDED_MSG_SIZE - buf1.buffer.length),
                    lastFrameTime := now }
    if (frameSeq : Int) = (totalFrames : Int) - 1 then
      (emptyExtBuffer, some ⟨buf2.msgType, buf2.senderId, buf2.buffer⟩)
    else (buf2, none)

/-- Feed a timed sequence of extended frames through `processExtendedFrame`,
collecting completed messages in arrival order. -/
def runReassembly (buf : ExtBuffer) :
    List (Nat × ExtFrame) → ExtBuffer × List CompletedMsg
  | [] => (buf, [])
  | (now, f) :: rest =>
    match processExtendedFrame now buf f with
    | (buf2, none) => runReassembly buf2 rest
    | (buf2, some m) =>
      let (buf3, ms) := runReassembly buf2 rest
      (buf3, m :: ms)

/-! ### Broker data model (CANPubSub.h structs) -/

/-- `Subscription`: one active-table row; `subCount` is the list length. -/
structure Subscription where
  topicHash : Nat
  subscribers : List Nat
deriving DecidableEq

/-- `ClientSubscriptions`: one persisted per-client topic set; `topicCount`
is the list length. -/
structure ClientSubscriptions where
  clientId : Nat
  topics : List Nat
deriving DecidableEq

/-- `ClientMapping`: one registry entry; `setSerial` truncates the serial to
31 bytes, which is applied at the creation site. -/
structure ClientMapping where
  clientId : Nat
  serialNumber : List Nat
  registered : Bool
deriving DecidableEq

/-! ### Broker subscription table (CANPubSubBroker) -/

/-- The first loop of `addSubscription` (CANPubSub.cpp lines 500-515): scan
the table for the row of `topicHash`.  `none` when no row matches;
`some (tbl, stored)` gives the updated table and whether the source falls
through to `storeClientSubscriptions` (it returns immediately, without
storing, when the client is already subscribed). -/
def insertIntoRows (clientId topicHash : Nat) :
    List Subscription → Option (List Subscription × Bool)
  | [] => none
  | r :: rest =>
    if r.topicHash = topicHash then
      if clientId ∈ r.subscribers then some (r :: rest, false)
      else if r.subscribers.length < MAX_SUBSCRIBERS_PER_TOPIC then
        some ({ r with subscribers := r.subscribers ++ [clientId] } :: rest, true)
      else some (r :: rest, true)
    else (insertIntoRows clientId topicHash rest).map (fun p => (r :: p.1, p.2))

/-- Table effect of `addSubscription` (CANPubSub.cpp lines 500-526); this is
also, verbatim, the insertion step of `restoreClientSubscriptions` (lines
2223-2254) and of `restoreAllSubscriptionsToActiveTable` (lines 2368-2398):
append the client to the row when absent and the row holds fewer than 10
subscribers, create a new row when the table holds fewer than 20 rows,
silently drop otherwise. -/
def addSubscriptionTable (clientId topicHash : Nat) (tbl : List Subscription) :
    List Subscription :=
  match insertIntoRows clientId topicHash tbl with
  | some p => p.1
  | none =>
    if tbl.length < MAX_SUBSCRIPTIONS then tbl ++ [⟨topicHash, [clientId]⟩]
    else tbl

/-- `removeSubscription`'s scan (CANPubSub.cpp lines 528-555): find a row of
`topicHash` that contains the client, erase the client's (first) occurrence
by shifting, drop the row if it became empty, and stop.  `none` when no such
row exists (in which case the source changes nothing and does not store). -/
def removeFromRows (clientId topicHash : Nat) :
    List Subscription → Option (List Subscription)
  | [] => none
  | r :: rest =>
    if r.topicHash = topicHash ∧ clientId ∈ r.subscribers then
      let subs := r.subscribers.erase clientId
      some (if subs = [] then rest else { r with subscribers := subs } :: rest)
    else (removeFromRows clientId topicHash rest).map (fun l => r :: l)

/-- Table effect of `removeSubscription`. -/
def removeSubscriptionTable (clientId topicHash : Nat) (tbl : List Subscription) :
    List Subscription :=
  match removeFromRows clientId topicHash tbl with
  | some l => l
  | none => tbl

/-- Table effect of `removeAllSubscriptions` (CANPubSub.cpp lines 557-582):
every occurrence of the client is removed from every row, and every row
whose subscriber list ends up empty is removed. -/
def removeAllSubscriptionsTable (clientId : Nat) (tbl : List Subscription) :
    List Subscription :=
  (tbl.map (fun r => { r with subscribers := r.subscribers.filter (fun x => x ≠ clientId) })).filter
    (fun r => r.subscribers ≠ [])

/-- `findStoredSubscription` (CANPubSub.cpp lines 2287-2294): first stored
entry of the client. -/
def findStoredSubscription (clientId : Nat) :
    List ClientSubscriptions → Option ClientSubscriptions
  | [] => none
  | e :: rest => if e.clientId = clientId then some e else findStoredSubscription clientId rest

/-- The topic collection loop of `storeClientSubscriptions` (CANPubSub.cpp
lines 2200-2208): the hashes of the rows containing the client, in table
order, capped at `MAX_STORED_SUBS_PER_CLIENT`. -/
def clientTopicsOf (clientId : Nat) (tbl : List Subscription) : List Nat :=
  ((tbl.filter (fun r => clientId ∈ r.subscribers)).map (fun r => r.topicHash)).take
    MAX_STORED_SUBS_PER_CLIENT

/-- Replace the topics of the first stored entry of the client; `none` when
the client has no entry. -/
def replaceStored (clientId : Nat) (topics : List Nat) :
    List ClientSubscriptions → Option (List ClientSubscriptions)
  | [] => none
  | e :: rest =>
    if e.clientId = clientId then some ({ e with topics } :: rest)
    else (replaceStored clientId topics rest).map (fun l => e :: l)

/-- `storeClientSubscriptions` (CANPubSub.cpp lines 2188-2212): recompute the
client's stored topic set from the active table; create the entry if absent
and fewer than 50 entries exist, else return without change. -/
def storeClientSubscriptions (clientId : Nat) (tbl : List Subscription)
    (stored : List ClientSubscriptions) : List ClientSubscriptions :=
  let topics := clientTopicsOf clientId tbl
  match replaceStored clientId topics stored with
  | some s => s
  | none =>
    if stored.length < MAX_CLIENT_MAPPINGS then stored ++ [⟨clientId, topics⟩]
    else stored

/-- Combined effect of `addSubscription` on `(active table, stored
subscriptions)`, with the exact placement of the `storeClientSubscriptions`
calls of CANPubSub.cpp lines 500-526. -/
def addSubscription (clientId topicHash : Nat)
    (tbl : List Subscription) (stored : List ClientSubscriptions) :
    List Subscription × List ClientSubscriptions :=
  match insertIntoRows clientId topicHash tbl with
  | some (tbl2, true) => (tbl2, storeClientSubscriptions clientId tbl2 stored)
  | some (tbl2, false) => (tbl2, stored)
  | none =>
    if tbl.length < MAX_SUBSCRIPTIONS then
      let tbl2 := tbl ++ [⟨topicHash, [clientId]⟩]
      (tbl2, storeClientSubscriptions clientId tbl2 stored)
    else (tbl, stored)

/-- Combined effect of `removeSubscription` on `(active table, stored
subscriptions)` (CANPubSub.cpp lines 528-555): the store only runs when a
subscription was actually removed. -/
def removeSubscription (clientId topicHash : Nat)
    (tbl : List Subscription) (stored : List ClientSubscriptions) :
    List Subscription × List ClientSubscriptions :=
  match removeFromRows clientId topicHash tbl with
  | some tbl2 => (tbl2, storeClientSubscriptions clientId tbl2 stored)
  | none => (tbl, stored)

/-- Table effect of `restoreClientSubscriptions` (CANPubSub.cpp lines
2214-2285): replay each stored topic of the client through the shared
insertion step (the `SUB_RESTORE` frames it also emits are not needed by the
claims). -/
def restoreClientSubscriptionsTable (clientId : Nat)
    (stored : List ClientSubscriptions) (tbl : List Subscription) :
    List Subscription :=
  match findStoredSubscription clientId stored with
  | none => tbl
  | some e => e.topics.foldl (fun acc t => addSubscriptionTable clientId t acc) tbl

/-- `restoreAllSubscriptionsToActiveTable` (CANPubSub.cpp lines 2356-2401):
replay every stored entry (its topic loop is capped at
`MAX_STORED_SUBS_PER_CLIENT`) through the shared insertion step. -/
def restoreAllSubscriptionsToActiveTable (stored : List ClientSubscriptions)
    (tbl : List Subscription) : List Subscription :=
  stored.foldl
    (fun acc e =>
      (e.topics.take MAX_STORED_SUBS_PER_CLIENT).foldl
        (fun acc2 t => addSubscriptionTable e.clientId t acc2) acc)
    tbl

/-! ### Broker client registry (CANPubSubBroker) -/

/-- `findClientMapping` by serial (CANPubSub.cpp lines 940-947), fused with
the `registered = true` update of `findOrCreateClientId`'s found branch:
returns the updated mapping list and the existing id. -/
def markRegistered (serial : List Nat) :
    List ClientMapping → Option (List ClientMapping × Nat)
  | [] => none
  | m :: rest =>
    if m.serialNumber = serial then some ({ m with registered := true } :: rest, m.clientId)
    else (markRegistered serial rest).map (fun p => (m :: p.1, p.2))

/-- `findClientMappingById` (CANPubSub.cpp lines 949-956). -/
def findClientMappingById (clientId : Nat) : List ClientMapping → Option ClientMapping
  | [] => none
  | m :: rest => if m.clientId = clientId then some m else findClientMappingById clientId rest

/-- `findOrCreateClientId` (CANPubSub.cpp lines 895-938) acting on
`(_clientMappings, _nextClientID)`: an existing serial is re-registered and
keeps its id; otherwise, if fewer than 50 mappings exist, the serial gets
`_nextClientID` (which then increments, wrapping `0xFF → 0x01`); a full
table yields `CAN_PS_UNASSIGNED_ID` with no change. -/
def findOrCreateClientId (serial : List Nat)
    (mappings : List ClientMapping) (nextClientID : Nat) :
    Nat × List ClientMapping × Nat :=
  match markRegistered serial mappings with
  | some (ms, id) => (id, ms, nextClientID)
  | none =>
    if mappings.length < MAX_CLIENT_MAPPINGS then
      let assignedId := nextClientID
      let next1 := nextClientID + 1
      let next2 := if next1 = 0xFF then 0x01 else next1
      (assignedId,
       mappings ++ [⟨assignedId, serial.take (MAX_SERIAL_LENGTH - 1), true⟩],
       next2)
    else (CAN_PS_UNASSIGNED_ID, mappings, nextClientID)

/-- The `registered = false` update of `unregisterClient` (CANPubSub.cpp
lines 962-972); `none` when the id has no mapping. -/
def unregisterFlag (clientId : Nat) : List ClientMapping → Option (List ClientMapping)
  | [] => none
  | m :: rest =>
    if m.clientId = clientId then some ({ m with registered := false } :: rest)
    else (unregisterFlag clientId rest).map (fun l => m :: l)

/-! ### Broker state machine -/

/-- The broker fields the claims are about.  `_connectedClients`, ping
state, topic-name caches and callbacks are not referenced by any claim and
are omitted from the projection. -/
structure BrokerState where
  active : List Subscription
  stored : List ClientSubscriptions
  mappings : List ClientMapping
  nextClientID : Nat
  nextTempID : Nat
deriving DecidableEq

/-- Constructor state (CANPubSub.cpp lines 135-159) restricted to the
modelled fields; `begin()` on an empty store reproduces it. -/
def initialBroker : BrokerState := ⟨[], [], [], 0x01, 101⟩

/-- The broker operations that mutate the modelled fields, as dispatched by
`handleMessage` / the public API. -/
inductive BrokerEvent where
  /-- `handleSubscribe` with a well-formed frame (the topic-name bytes only
  feed the name caches, which are not modelled). -/
  | subscribe (clientId topicHash : Nat)
  /-- `handleUnsubscribe` with a well-formed frame. -/
  | unsubscribe (clientId topicHash : Nat)
  /-- `handleIdRequestWithSerial` / `registerClient`: `findOrCreateClientId`
  followed, when the client has stored subscriptions, by
  `restoreClientSubscriptions`. -/
  | idRequestSerial (serial : List Nat)
  /-- `assignClientID`: hand out the next temporary id (wrapping
  `0xFF → 101`); touches no table. -/
  | idRequestAnon
  /-- `unregisterClient` by id. -/
  | unregister (clientId : Nat)
  /-- `restoreClientSubscriptions` on its own. -/
  | restoreClient (clientId : Nat)
  /-- A power cycle followed by `begin()` (CANPubSub.cpp lines 161-200): the
  persisted namespaces (mappings, stored subscriptions, `_nextClientID`) are
  reloaded unchanged — every mutation flushed them — the temporary-id
  counter and the active table are reset, and the active table is rebuilt by
  `restoreAllSubscriptionsToActiveTable`. -/
  | powerCycle
deriving DecidableEq

/-- One broker step. -/
def brokerStep (st : BrokerState) : BrokerEvent → BrokerState
  | .subscribe c t =>
    let p := addSubscription c t st.active st.stored
    { st with active := p.1, stored := p.2 }
  | .unsubscribe c t =>
    let p := removeSubscription c t st.active st.stored
    { st with active := p.1, stored := p.2 }
  | .idRequestSerial serial =>
    if serial = [] then
      { st with nextTempID := if st.nextTempID + 1 = 0xFF then 101 else st.nextTempID + 1 }
    else
      let r := findOrCreateClientId serial st.mappings st.nextClientID
      let hasStoredSubs : Bool := match findStoredSubscription r.1 st.stored with
        | some e => decide (0 < e.topics.length)
        | none => false
      let active2 := if hasStoredSubs then
          restoreClientSubscriptionsTable r.1 st.stored st.active
        else st.active
      { st with mappings := r.2.1, nextClientID := r.2.2, active := active2 }
  | .idRequestAnon =>
    { st with nextTempID := if st.nextTempID + 1 = 0xFF then 101 else st.nextTempID + 1 }
  | .unregister c =>
    match unregisterFlag c st.mappings with
    | none => st
    | some ms =>
      let active2 := removeAllSubscriptionsTable c st.active
      { st with mappings := ms, active := active2,
                stored := storeClientSubscriptions c active2 st.stored }
  | .restoreClient c =>
    { st with active := restoreClientSubscriptionsTable c st.stored st.active }
  | .powerCycle =>
    { st with active := restoreAllSubscriptionsToActiveTable st.stored [],
              nextTempID := 101 }

/-- Broker states reachable from the constructor state. -/
def runBroker (evs : List BrokerEvent) : BrokerState :=
  evs.foldl brokerStep initialBroker

/-! ### Broker peer-message forwarding -/

/-- `handlePeerMessage` (CANPubSub.cpp lines 448-498), with the emitted
frames made explicit: the message is forwarded only when both the sender and
the target have a registry entry; the forward is a single standard frame
when `2 + length ≤ 8` and an extended sequence (payload capped at 128)
otherwise. -/
def handlePeerMessage (mappings : List ClientMapping) (bytes : List Nat) :
    List Frame :=
  match bytes with
  | senderId :: targetId :: message =>
    if (findClientMappingById senderId mappings).isNone then []
    else if (findClientMappingById targetId mappings).isNone then []
    else
      if CAN_FRAME_DATA_SIZE < 1 + 1 + message.length then
        sendExtendedMessage CAN_PS_PEER_MSG
          (senderId :: targetId :: message.take (MAX_EXTENDED_MSG_SIZE - 2))
      else [Frame.std CAN_PS_PEER_MSG (senderId :: targetId :: message)]
  | _ => []

/-! ### Client state machine (CANPubSubClient) -/

/-- The client fields the claims are about (`_lastPing`/`_lastPong`, the
peer-message dedup cache, the topic-name cache and callbacks are not
referenced by any claim). -/
structure ClientState where
  clientId : Nat
  connected : Bool
  serialNumber : List Nat
  subscribedTopics : List Nat
  extBuf : ExtBuffer
deriving DecidableEq

/-- `handleIdAssignment` (CANPubSub.cpp lines 1471-1503): read the assigned
id, consume the optional stored-subscriptions flag, and, only when the frame
still has bytes AND the client's own serial is non-empty, compare the echoed
serial (`serialLen` bytes, bounded by what is available) with the client's
own; on mismatch return without any state change, otherwise adopt the id. -/
def handleIdAssignment (st : ClientState) (bytes : List Nat) : ClientState :=
  match bytes with
  | [] => st
  | assignedId :: rest =>
    let rest2 := rest.tail
    if rest ≠ [] ∧ rest2 ≠ [] ∧ st.serialNumber ≠ [] then
      match rest2 with
      | [] => st
      | serialLen :: srest =>
        if srest.take serialLen ≠ st.serialNumber then st
        else { st with clientId := assignedId, connected := true }
    else { st with clientId := assignedId, connected := true }

/-- `handleSubscribeNotification` (CANPubSub.cpp lines 1505-1541): a
broker-sent SUBSCRIBE addressed to this client appends the topic hash to the
local list when the list has room and the hash is not already present. -/
def handleSubscribeNotification (st : ClientState) (bytes : List Nat) : ClientState :=
  match bytes with
  | clientId :: h1 :: h2 :: _ :: _ =>
    if clientId ≠ st.clientId then st
    else
      let topicHash := (h1 <<< 8) ||| h2
      if st.subscribedTopics.length < MAX_CLIENT_TOPICS then
        if topicHash ∈ st.subscribedTopics then st
        else { st with subscribedTopics := st.subscribedTopics ++ [topicHash] }
      else st
  | _ => st

/-- `handleSubscriptionRestore` (CANPubSub.cpp lines 1598-1630): same local
insertion as `handleSubscribeNotification` (the dup test and the capacity
test are evaluated together here, as in the source). -/
def handleSubscriptionRestore (st : ClientState) (bytes : List Nat) : ClientState :=
  match bytes with
  | clientId :: h1 :: h2 :: _ :: _ =>
    if clientId ≠ st.clientId then st
    else
      let topicHash := (h1 <<< 8) ||| h2
      if topicHash ∉ st.subscribedTopics ∧ st.subscribedTopics.length < MAX_CLIENT_TOPICS then
        { st with subscribedTopics := st.subscribedTopics ++ [topicHash] }
      else st
  | _ => st

/-- The `CAN_PS_ID_RESPONSE` case of the client's
`onExtendedMessageComplete` (CANPubSub.cpp lines 1862-1889): the extracted
`senderId` is the assigned id, `data = [hasStoredSubs, serialLen,
serial...]`; a client with a non-empty serial ignores the message when the
echoed serial differs from its own. -/
def clientExtIdResponse (st : ClientState) (senderId : Nat) (data : List Nat) :
    ClientState :=
  match data with
  | _ :: serialLen :: srest =>
    if st.serialNumber ≠ [] ∧ srest.take serialLen ≠ st.serialNumber then st
    else { st with clientId := senderId, connected := true }
  | _ => st

/-- The `CAN_PS_SUBSCRIBE` and `CAN_PS_SUB_RESTORE` cases of the client's
`onExtendedMessageComplete` (CANPubSub.cpp lines 1891-1969), which share
this body: `senderId` is the target client id, `data = [hash_hi, hash_lo,
nameLen, name...]`. -/
def clientExtSubAdd (st : ClientState) (senderId : Nat) (data : List Nat) :
    ClientState :=
  match data with
  | h1 :: h2 :: _ :: _ =>
    if senderId ≠ st.clientId then st
    else
      let topicHash := (h1 <<< 8) ||| h2
      if st.subscribedTopics.length < MAX_CLIENT_TOPICS then
        if topicHash ∈ st.subscribedTopics then st
        else { st with subscribedTopics := st.subscribedTopics ++ [topicHash] }
      else st
  | _ => st

/-- Dispatch of the client's `onExtendedMessageComplete` restricted to the
modelled fields: `CAN_PS_TOPIC_DATA`, `CAN_PS_DIRECT_MSG` and
`CAN_PS_PEER_MSG` only invoke callbacks / the dedup cache and leave the
modelled fields unchanged. -/
def clientOnExtendedMessageComplete (st : ClientState) (m : CompletedMsg) :
    ClientState :=
  if m.msgType = CAN_PS_ID_RESPONSE then clientExtIdResponse st m.senderId m.data
  else if m.msgType = CAN_PS_SUBSCRIBE then clientExtSubAdd st m.senderId m.data
  else if m.msgType = CAN_PS_SUB_RESTORE then clientExtSubAdd st m.senderId m.data
  else st

/-- The client's `handleMessage` (CANPubSub.cpp lines 1390-1469) restricted
to the modelled fields: extended frames go through the reassembler; of the
standard-frame handlers, only `ID_RESPONSE`, `SUBSCRIBE` and `SUB_RESTORE`
touch `_clientId` / `_connected` / `_subscribedTopics` (TOPIC_DATA,
DIRECT_MSG, PEER_MSG, PING, PONG, ACK do not). -/
def clientHandleMessage (now : Nat) (st : ClientState) : Frame → ClientState
  | .ext f =>
    match processExtendedFrame now st.extBuf f with
    | (buf2, none) => { st with extBuf := buf2 }
    | (buf2, some m) => clientOnExtendedMessageComplete { st with extBuf := buf2 } m
  | .std id data =>
    if id = CAN_PS_ID_RESPONSE then handleIdAssignment st data
    else if id = CAN_PS_SUBSCRIBE then handleSubscribeNotification st data
    else if id = CAN_PS_SUB_RESTORE then handleSubscriptionRestore st data
    else st

/-- The wait loop of `connect(timeout)` (CANPubSub.cpp lines 1300-1325):
frames are handled only while `_clientId` is still `CAN_PS_UNASSIGNED_ID`. -/
def processUntilAssigned (now : Nat) (st : ClientState) : List Frame → ClientState
  | [] => st
  | f :: rest =>
    if st.clientId ≠ CAN_PS_UNASSIGNED_ID then st
    else processUntilAssigned now (clientHandleMessage now st f) rest

/-- `connect(timeout)` (CANPubSub.cpp lines 1300-1325): clear the local
subscription list, send `ID_REQUEST` (output not modelled), handle the
frames arriving within the timeout window, succeed iff an id was adopted.
`frames` is the sequence of frames the controller delivers during the
window. -/
def clientConnect (st : ClientState) (frames : List Frame) : Bool × ClientState :=
  let st1 := { st with subscribedTopics := [] }
  let st2 := processUntilAssigned 0 st1 frames
  if st2.clientId ≠ CAN_PS_UNASSIGNED_ID then (true, { st2 with connected := true })
  else (false, st2)

/-- `connect(serialNumber, timeout)` (CANPubSub.cpp lines 1327-1369): clear
the local subscription list, record the serial, send the id request, and
keep handling frames (also after the id arrives, for the subscription
restoration); succeed iff an id was adopted. -/
def clientConnectWithSerial (serial : List Nat) (st : ClientState)
    (frames : List Frame) : Bool × ClientState :=
  let st1 := { st with subscribedTopics := [], serialNumber := serial }
  let st2 := frames.foldl (clientHandleMessage 0) st1
  if st2.clientId ≠ CAN_PS_UNASSIGNED_ID then (true, { st2 with connected := true })
  else (false, st2)

/-! ### Client pub/sub operations -/

/-- `subscribe` (CANPubSub.cpp lines 1652-1686) restricted to the local
mirror: when connected, the topic hash is appended to `_subscribedTopics`
whenever the list holds fewer than `MAX_CLIENT_TOPICS` entries — with no
duplicate check.  Returns the source's `bool` result. -/
def clientSubscribe (st : ClientState) (topic : List Nat) : Bool × ClientState :=
  if st.connected = false then (false, st)
  else
    let topicHash := hashTopic topic
    if st.subscribedTopics.length < MAX_CLIENT_TOPICS then
      (true, { st with subscribedTopics := st.subscribedTopics ++ [topicHash] })
    else (true, st)

/-- `getSubscriptionCount` (CANPubSub.cpp lines 1845-1847). -/
def getSubscriptionCount (st : ClientState) : Nat :=
  st.subscribedTopics.length

/-- `sendPeerMessage` (CANPubSub.cpp lines 1766-1794): refuse without I/O
when not connected or when the client holds no serial number (temporary id);
otherwise emit the peer frame(s). -/
def sendPeerMessage (st : ClientState) (targetClientId : Nat) (message : List Nat) :
    Bool × List Frame :=
  if st.connected = false then (false, [])
  else if st.serialNumber.length = 0 then (false, [])
  else
    if CAN_FRAME_DATA_SIZE < 1 + 1 + message.length then
      (true, sendExtendedMessage CAN_PS_PEER_MSG
        (st.clientId :: targetClientId :: message.take (MAX_EXTENDED_MSG_SIZE - 2)))
    else (true, [Frame.std CAN_PS_PEER_MSG (st.clientId :: targetClientId :: message)])

/-! ### Derived notions used by the claims -/

/-- Client `c` is subscribed to topic `t` in the active table. -/
def memPair (tbl : List Subscription) (c t : Nat) : Prop :=
  ∃ r ∈ tbl, r.topicHash = t ∧ c ∈ r.subscribers

instance (tbl : List Subscription) (c t : Nat) : Decidable (memPair tbl c t) := by
  unfold memPair; infer_instance

/-- Client `c` has topic `t` among its stored subscriptions (within the
per-entry cap that `restoreAllSubscriptionsToActiveTable` replays). -/
def memStored (stored : List ClientSubscriptions) (c t : Nat) : Prop :=
  ∃ e ∈ stored, e.clientId = c ∧ t ∈ e.topics.take MAX_STORED_SUBS_PER_CLIENT

instance (stored : List ClientSubscriptions) (c t : Nat) : Decidable (memStored stored c t) := by
  unfold memStored; infer_instance

/-- The two per-row invariants of claim C3: no duplicate subscriber ids,
and a non-empty subscriber list (`subCount` never 0). -/
def SubTableInv (tbl : List Subscription) : Prop :=
  ∀ r ∈ tbl, r.subscribers.Nodup ∧ r.subscribers ≠ []

instance (tbl : List Subscription) : Decidable (SubTableInv tbl) := by
  unfold SubTableInv; infer_instance

/-! ### Invariants and derived notions used by the claim statements -/

/-- Inductive invariant of the registry: `_nextClientID` is always one past
the number of mappings, the mapping table respects its capacity, and every
assigned id lies in `1 .. mappings.length`. -/
def RegInv (st : BrokerState) : Prop :=
  st.nextClientID = st.mappings.length + 1 ∧
  st.mappings.length ≤ MAX_CLIENT_MAPPINGS ∧
  ∀ m ∈ st.mappings, 1 ≤ m.clientId ∧ m.clientId ≤ st.mappings.length

/-- The `(clientId, topicHash)` pairs replayed by
`restoreAllSubscriptionsToActiveTable`, in replay order. -/
def storedPairs (stored : List ClientSubscriptions) : List (Nat × Nat) :=
  stored.flatMap
    (fun e => (e.topics.take MAX_STORED_SUBS_PER_CLIENT).map (fun t => (e.clientId, t)))

/-- The stored entries reference at most `MAX_SUBSCRIPTIONS` distinct
topics. -/
def TopicCapOK (P : List (Nat × Nat)) : Prop :=
  ((P.map Prod.snd).dedup).length ≤ MAX_SUBSCRIPTIONS

instance (P : List (Nat × Nat)) : Decidable (TopicCapOK P) := by
  unfold TopicCapOK; infer_instance

/-- Each referenced topic has at most `MAX_SUBSCRIBERS_PER_TOPIC` distinct
stored clients. -/
def ClientCapOK (P : List (Nat × Nat)) : Prop :=
  ∀ t ∈ P.map Prod.snd,
    (((P.filter (fun q => q.2 = t)).map Prod.fst).dedup).length ≤
      MAX_SUBSCRIBERS_PER_TOPIC

instance (P : List (Nat × Nat)) : Decidable (ClientCapOK P) := by
  unfold ClientCapOK; infer_instance

/-- The invariant carried while replaying the stored pairs: the table's
topics are distinct and drawn from the stored topics, the subscriber lists
are duplicate-free, and the table holds exactly the pairs already
replayed. -/
def RestoreInv (P done : List (Nat × Nat)) (tbl : List Subscription) : Prop :=
  (tbl.map (fun r => r.topicHash)).Nodup ∧
  (∀ r ∈ tbl, r.subscribers.Nodup) ∧
  (∀ r ∈ tbl, r.topicHash ∈ P.map Prod.snd) ∧
  (∀ r ∈ tbl, ∀ x ∈ r.subscribers, (x, r.topicHash) ∈ done) ∧
  (∀ x t2, (x, t2) ∈ done → memPair tbl x t2)

/-- The extended frames of an outbound frame list, paired with a common
arrival instant, in order — the shape `processExtendedFrame` consumes. -/
def extPayload (frames : List Frame) : List (Nat × ExtFrame) :=
  frames.filterMap (fun f => match f with
    | Frame.ext e => some ((0 : Nat), e)
    | Frame.std _ _ => none)

/-- A frame whose first payload byte cannot be mistaken for the unassigned
id `0xFF`: for standard frames the first data byte, for extended frames the
first byte of a sequence-0 frame (the byte `processExtendedFrame` extracts
as `senderId`). -/
def FrameFirstByteOk : Frame → Prop
  | .std _ data => ∀ x, data.head? = some x → x ≠ CAN_PS_UNASSIGNED_ID
  | .ext f => ((f.extId >>> 13) &&& 0xFF) = 0 →
      ∀ x, f.data.head? = some x → x ≠ CAN_PS_UNASSIGNED_ID

/-- The invariant carried through the connect wait loop: while the client
still holds the unassigned id its local list is empty, and an active
reassembly buffer does not carry the unassigned id as sender. -/
def ClientOkInv (st : ClientState) : Prop :=
  (st.clientId = CAN_PS_UNASSIGNED_ID → st.subscribedTopics = []) ∧
  (st.extBuf.active = true → st.extBuf.senderId ≠ CAN_PS_UNASSIGNED_ID)

/-! ### Helper lemmas -/

theorem foldl_preserve {α β : Type} {P : α → Prop} {f : α → β → α}
    (h : ∀ a b, P a → P (f a b)) : ∀ (l : List β) (a : α), P a → P (l.foldl f a) := by
  intro l
  induction l with
  | nil => intro a ha; exact ha
  | cons x xs ih => intro a ha; exact ih (f a x) (h a x ha)

theorem insertIntoRows_subset (c t : Nat) :
    ∀ (tbl tbl2 : List Subscription) (b : Bool),
      insertIntoRows c t tbl = some (tbl2, b) → ∀ r2 ∈ tbl2,
        r2 ∈ tbl ∨ ∃ r ∈ tbl, c ∉ r.subscribers ∧
          r2 = { r with subscribers := r.subscribers ++ [c] } := by
  intro tbl
  induction tbl with
  | nil => intro tbl2 b h; simp [insertIntoRows] at h
  | cons r rest ih =>
    intro tbl2 b h r2 hr2
    by_cases hht : r.topicHash = t
    · subst hht
      by_cases hcm : c ∈ r.subscribers
      · simp [insertIntoRows, hcm] at h
        obtain ⟨h1, h2⟩ := h
        subst h1
        exact Or.inl hr2
      · by_cases hlen : r.subscribers.length < MAX_SUBSCRIBERS_PER_TOPIC
        · simp [insertIntoRows, hcm, hlen] at h
          obtain ⟨h1, h2⟩ := h
          subst h1
          rcases List.mem_cons.mp hr2 with h1 | h1
          · exact Or.inr ⟨r, List.mem_cons_self r rest, hcm, h1⟩
          · exact Or.inl (List.mem_cons_of_mem r h1)
        · simp [insertIntoRows, hcm, hlen] at h
          obtain ⟨h1, h2⟩ := h
          subst h1
          exact Or.inl hr2
    · simp only [insertIntoRows, if_neg hht] at h
      cases h2 : insertIntoRows c t rest with
      | none => rw [h2] at h; simp at h
      | some p =>
        rw [h2] at h
        simp only [Option.map_some', Option.some.injEq] at h
        obtain ⟨h1, hb⟩ := Prod.mk.inj h.symm
        subst h1
        rcases List.mem_cons.mp hr2 with h1 | h1
        · exact Or.inl (h1 ▸ List.mem_cons_self r rest)
        · rcases ih p.1 p.2 (by rw [h2]) r2 h1 with h3 | ⟨r0, hr0, hc0, he0⟩
          · exact Or.inl (List.mem_cons_of_mem r h3)
          · exact Or.inr ⟨r0, List.mem_cons_of_mem r hr0, hc0, he0⟩

theorem addSubscriptionTable_inv (c t : Nat) (tbl : List Subscription)
    (h : SubTableInv tbl) : SubTableInv (addSubscriptionTable c t tbl) := by
  unfold addSubscriptionTable
  cases hi : insertIntoRows c t tbl with
  | some p =>
    intro r2 hr2
    rcases insertIntoRows_subset c t tbl p.1 p.2 hi r2 hr2 with h1 | ⟨r, hr, hc, he⟩
    · exact h r2 h1
    · subst he
      refine ⟨?_, by simp⟩
      simp only [List.nodup_append, List.nodup_cons, List.nodup_nil]
      refine ⟨(h r hr).1, by simp, ?_⟩
      intro x hx hxc
      rw [List.mem_singleton] at hxc
      subst hxc
      exact hc hx
  | none =>
    by_cases hlen : tbl.length < MAX_SUBSCRIPTIONS
    · simp only [hlen, if_true]
      intro r2 hr2
      rcases List.mem_append.mp hr2 with h1 | h1
      · exact h r2 h1
      · simp at h1
        subst h1
        exact ⟨List.nodup_singleton c, by simp⟩
    · simp only [hlen, if_false]
      exact h

theorem removeFromRows_subset (c t : Nat) :
    ∀ (tbl tbl2 : List Subscription),
      removeFromRows c t tbl = some tbl2 → ∀ r2 ∈ tbl2,
        r2 ∈ tbl ∨ ∃ r ∈ tbl, r.subscribers.erase c ≠ [] ∧
          r2 = { r with subscribers := r.subscribers.erase c } := by
  intro tbl
  induction tbl with
  | nil => intro tbl2 h; simp [removeFromRows] at h
  | cons r rest ih =>
    intro tbl2 h r2 hr2
    by_cases hc : r.topicHash = t ∧ c ∈ r.subscribers
    · simp only [removeFromRows, if_pos hc, Option.some.injEq] at h
      by_cases he : r.subscribers.erase c = []
      · rw [if_pos he] at h
        subst h
        exact Or.inl (List.mem_cons_of_mem r hr2)
      · rw [if_neg he] at h
        subst h
        rcases List.mem_cons.mp hr2 with h1 | h1
        · exact Or.inr ⟨r, List.mem_cons_self r rest, he, h1⟩
        · exact Or.inl (List.mem_cons_of_mem r h1)
    · simp only [removeFromRows, if_neg hc] at h
      cases h2 : removeFromRows c t rest with
      | none => rw [h2] at h; simp at h
      | some l =>
        rw [h2] at h
        simp only [Option.map_some', Option.some.injEq] at h
        subst h
        rcases List.mem_cons.mp hr2 with h1 | h1
        · exact Or.inl (h1 ▸ List.mem_cons_self r rest)
        · rcases ih l h2 r2 h1 with h3 | ⟨r0, hr0, hc0, he0⟩
          · exact Or.inl (List.mem_cons_of_mem r h3)
          · exact Or.inr ⟨r0, List.mem_cons_of_mem r hr0, hc0, he0⟩

theorem removeSubscriptionTable_inv (c t : Nat) (tbl : List Subscription)
    (h : SubTableInv tbl) : SubTableInv (removeSubscriptionTable c t tbl) := by
  unfold removeSubscriptionTable
  cases hr : removeFromRows c t tbl with
  | none => exact h
  | some l =>
    intro r2 hr2
    rcases removeFromRows_subset c t tbl l hr r2 hr2 with h1 | ⟨r, hrm, hne, he⟩
    · exact h r2 h1
    · subst he
      exact ⟨List.Nodup.erase c (h r hrm).1, hne⟩

theorem removeAllSubscriptionsTable_inv (c : Nat) (tbl : List Subscription)
    (h : SubTableInv tbl) : SubTableInv (removeAllSubscriptionsTable c tbl) := by
  intro r2 hr2
  unfold removeAllSubscriptionsTable at hr2
  rcases List.mem_filter.mp hr2 with ⟨hmem, hne⟩
  rcases List.mem_map.mp hmem with ⟨r, hr, he⟩
  subst he
  refine ⟨List.Nodup.filter _ (h r hr).1, ?_⟩
  simpa using hne

theorem restoreClientSubscriptionsTable_inv (c : Nat) (stored : List ClientSubscriptions)
    (tbl : List Subscription) (h : SubTableInv tbl) :
    SubTableInv (restoreClientSubscriptionsTable c stored tbl) := by
  unfold restoreClientSubscriptionsTable
  cases findStoredSubscription c stored with
  | none => exact h
  | some e =>
    exact foldl_preserve (fun a t ha => addSubscriptionTable_inv c t a ha) e.topics tbl h

theorem restoreAllSubscriptionsToActiveTable_inv (stored : List ClientSubscriptions)
    (tbl : List Subscription) (h : SubTableInv tbl) :
    SubTableInv (restoreAllSubscriptionsToActiveTable stored tbl) := by
  unfold restoreAllSubscriptionsToActiveTable
  refine foldl_preserve ?_ stored tbl h
  intro a e ha
  exact foldl_preserve (fun a2 t ha2 => addSubscriptionTable_inv e.clientId t a2 ha2) _ a ha

theorem addSubscription_fst (c t : Nat) (tbl : List Subscription)
    (stored : List ClientSubscriptions) :
    (addSubscription c t tbl stored).1 = addSubscriptionTable c t tbl := by
  unfold addSubscription addSubscriptionTable
  cases h : insertIntoRows c t tbl with
  | none => by_cases hl : tbl.length < MAX_SUBSCRIPTIONS <;> simp [hl]
  | some p =>
    obtain ⟨l, b⟩ := p
    cases b <;> simp

theorem removeSubscription_fst (c t : Nat) (tbl : List Subscription)
    (stored : List ClientSubscriptions) :
    (removeSubscription c t tbl stored).1 = removeSubscriptionTable c t tbl := by
  unfold removeSubscription removeSubscriptionTable
  cases h : removeFromRows c t tbl <;> simp

theorem brokerStep_active_inv (st : BrokerState) (e : BrokerEvent)
    (h : SubTableInv st.active) : SubTableInv (brokerStep st e).active := by
  cases e with
  | subscribe c t =>
    simpa [brokerStep, addSubscription_fst] using addSubscriptionTable_inv c t st.active h
  | unsubscribe c t =>
    simpa [brokerStep, removeSubscription_fst] using
      removeSubscriptionTable_inv c t st.active h
  | idRequestSerial serial =>
    by_cases hs : serial = []
    · simpa [brokerStep, hs] using h
    · simp only [brokerStep, hs, if_false]
      split
      · exact restoreClientSubscriptionsTable_inv _ _ _ h
      · exact h
  | idRequestAnon => exact h
  | unregister c =>
    simp only [brokerStep]
    cases unregisterFlag c st.mappings with
    | none => exact h
    | some ms => exact removeAllSubscriptionsTable_inv c st.active h
  | restoreClient c => exact restoreClientSubscriptionsTable_inv c st.stored st.active h
  | powerCycle =>
    exact restoreAllSubscriptionsToActiveTable_inv st.stored [] (by intro r hr; simp at hr)

theorem processExtendedFrame_length_le (now : Nat) (buf : ExtBuffer) (f : ExtFrame)
    (h : buf.buffer.length ≤ MAX_EXTENDED_MSG_SIZE) :
    (processExtendedFrame now buf f).1.buffer.length ≤ MAX_EXTENDED_MSG_SIZE ∧
    ∀ m, (processExtendedFrame now buf f).2 = some m →
      m.data.length ≤ MAX_EXTENDED_MSG_SIZE := by
  have hmax : MAX_EXTENDED_MSG_SIZE = 128 := rfl
  rw [hmax] at h ⊢
  refine ⟨?_, ?_⟩
  · simp only [processExtendedFrame, hmax]
    repeat' split
    all_goals try simp_all [emptyExtBuffer, List.length_take]
    all_goals omega
  · intro m hm
    simp only [processExtendedFrame, hmax] at hm
    repeat' split at hm
    all_goals try cases hm
    all_goals try simp_all [emptyExtBuffer, List.length_take]
    all_goals omega

/-- C8: whatever sequence of (timed) extended frames is fed through
`processExtendedFrame`, the reassembly buffer's `receivedSize` (the length
of `buffer`, and hence the index of every write into the 128-byte array)
never exceeds `MAX_EXTENDED_MSG_SIZE`, and a completed message is handed to
the handler with length at most `MAX_EXTENDED_MSG_SIZE` — payload bytes
beyond the cap are silently dropped by the bounded append. -/
theorem c8_reassembly_bounded :
    ∀ (frames : List (Nat × ExtFrame)) (buf : ExtBuffer),
      buf.buffer.length ≤ MAX_EXTENDED_MSG_SIZE →
      (runReassembly buf frames).1.buffer.length ≤ MAX_EXTENDED_MSG_SIZE ∧
      ∀ m ∈ (runReassembly buf frames).2, m.data.length ≤ MAX_EXTENDED_MSG_SIZE := by
  intro frames
  induction frames with
  | nil => intro buf h; exact ⟨h, by simp [runReassembly]⟩
  | cons p rest ih =>
    obtain ⟨now, f⟩ := p
    intro buf h
    have hstep := processExtendedFrame_length_le now buf f h
    cases hp : processExtendedFrame now buf f with
    | mk buf2 o =>
      rw [hp] at hstep
      cases o with
      | none =>
        simpa [runReassembly, hp] using ih buf2 hstep.1
      | some m =>
        have ihh := ih buf2 hstep.1
        cases hrr : runReassembly buf2 rest with
        | mk buf3 ms =>
          rw [hrr] at ihh
          refine ⟨?_, ?_⟩
          · simpa [runReassembly, hp, hrr] using ihh.1
          · intro m2 hm2
            simp only [runReassembly, hp, hrr] at hm2
            rcases List.mem_cons.mp hm2 with h1 | h1
            · subst h1
              exact hstep.2 m2 rfl
            · exact ihh.2 m2 h1

/-- C8 witness: the theorem applied to a concrete two-frame sequence from
the empty buffer. -/
theorem c8_reassembly_bounded_witness :
    emptyExtBuffer.buffer.length ≤ MAX_EXTENDED_MSG_SIZE ∧
    ((runReassembly emptyExtBuffer
        [(0, ⟨(3 <<< 21) ||| 2, [9, 1, 2, 3, 4, 5, 6, 7]⟩),
         (0, ⟨((3 <<< 21) ||| (1 <<< 13)) ||| 2, [8, 10]⟩)]).1.buffer.length ≤
          MAX_EXTENDED_MSG_SIZE ∧
      ∀ m ∈ (runReassembly emptyExtBuffer
        [(0, ⟨(3 <<< 21) ||| 2, [9, 1, 2, 3, 4, 5, 6, 7]⟩),
         (0, ⟨((3 <<< 21) ||| (1 <<< 13)) ||| 2, [8, 10]⟩)]).2,
        m.data.length ≤ MAX_EXTENDED_MSG_SIZE) :=
  ⟨by decide,
   c8_reassembly_bounded
     [(0, ⟨(3 <<< 21) ||| 2, [9, 1, 2, 3, 4, 5, 6, 7]⟩),
      (0, ⟨((3 <<< 21) ||| (1 <<< 13)) ||| 2, [8, 10]⟩)]
     emptyExtBuffer (by decide)⟩

/-- C3: the two row invariants — no duplicate client id within a row, and
no row with an empty (`subCount == 0`) subscriber list — hold in every
broker state reachable from the constructor state, and each table-mutating
operation (`addSubscription`, `removeSubscription`, `removeAllSubscriptions`,
`restoreClientSubscriptions`, `restoreAllSubscriptionsToActiveTable`)
preserves them on any table satisfying them. -/
theorem c3_subscription_table_invariants :
    (∀ evs : List BrokerEvent, SubTableInv (runBroker evs).active) ∧
    (∀ c t tbl, SubTableInv tbl → SubTableInv (addSubscriptionTable c t tbl)) ∧
    (∀ c t tbl, SubTableInv tbl → SubTableInv (removeSubscriptionTable c t tbl)) ∧
    (∀ c tbl, SubTableInv tbl → SubTableInv (removeAllSubscriptionsTable c tbl)) ∧
    (∀ c stored tbl, SubTableInv tbl →
       SubTableInv (restoreClientSubscriptionsTable c stored tbl)) ∧
    (∀ stored tbl, SubTableInv tbl →
       SubTableInv (restoreAllSubscriptionsToActiveTable stored tbl)) := by
  refine ⟨?_, addSubscriptionTable_inv, removeSubscriptionTable_inv,
    removeAllSubscriptionsTable_inv, restoreClientSubscriptionsTable_inv,
    restoreAllSubscriptionsToActiveTable_inv⟩
  intro evs
  exact foldl_preserve (fun st e hst => brokerStep_active_inv st e hst) evs initialBroker
    (by intro r hr; simp [initialBroker] at hr)

/-- C3 witness: the theorem applied at a concrete reachable state and at a
concrete table. -/
theorem c3_subscription_table_invariants_witness :
    SubTableInv (runBroker [BrokerEvent.subscribe 1 5, BrokerEvent.subscribe 2 5]).active ∧
    SubTableInv (addSubscriptionTable 2 7 [⟨5, [1]⟩]) :=
  ⟨c3_subscription_table_invariants.1 [BrokerEvent.subscribe 1 5, BrokerEvent.subscribe 2 5],
   c3_subscription_table_invariants.2.1 2 7 [⟨5, [1]⟩] (by decide)⟩

/-- C9: the client-side `subscribe` keeps no-duplicate checks only on the
broker side: a connected client with room in its local list appends the
topic hash again even when already present, so `getSubscriptionCount` grows
by one per repeated call, while `addSubscription`'s table insertion keeps
the broker table free of duplicate subscriber ids (and of empty rows). -/
theorem c9_local_mirror_not_deduplicated (st : ClientState) (topic : List Nat)
    (hconn : st.connected = true)
    (hlen : st.subscribedTopics.length < MAX_CLIENT_TOPICS)
    (hmem : hashTopic topic ∈ st.subscribedTopics) :
    (clientSubscribe st topic).2.subscribedTopics =
      st.subscribedTopics ++ [hashTopic topic] ∧
    getSubscriptionCount (clientSubscribe st topic).2 = getSubscriptionCount st + 1 ∧
    (∀ c t tbl, SubTableInv tbl → SubTableInv (addSubscriptionTable c t tbl)) := by
  refine ⟨?_, ?_, addSubscriptionTable_inv⟩ <;>
    simp [clientSubscribe, hconn, hlen, getSubscriptionCount]

/-- C9 witness: a second `subscribe` to the already-present topic "a". -/
theorem c9_local_mirror_not_deduplicated_witness :
    (clientSubscribe ⟨5, true, [], [97], emptyExtBuffer⟩ [97]).2.subscribedTopics =
      [97] ++ [hashTopic [97]] ∧
    getSubscriptionCount (clientSubscribe ⟨5, true, [], [97], emptyExtBuffer⟩ [97]).2 =
      getSubscriptionCount ⟨5, true, [], [97], emptyExtBuffer⟩ + 1 ∧
    (∀ c t tbl, SubTableInv tbl → SubTableInv (addSubscriptionTable c t tbl)) :=
  c9_local_mirror_not_deduplicated ⟨5, true, [], [97], emptyExtBuffer⟩ [97]
    (by decide) (by decide) (by decide)

theorem sendExtendedMessage_ne_nil (mt : Nat) (data : List Nat)
    (h : data.length ≤ MAX_EXTENDED_MSG_SIZE) : sendExtendedMessage mt data ≠ [] := by
  unfold sendExtendedMessage
  by_cases hle : data.length ≤ CAN_FRAME_DATA_SIZE
  · simp [hle]
  · simp only [hle, if_false, ne_eq, List.map_eq_nil_iff, List.range_eq_nil]
    simp only [MAX_EXTENDED_MSG_SIZE] at h
    simp only [CAN_FRAME_DATA_SIZE] at hle ⊢
    omega

/-- C7: the broker forwards an inbound PEER_MSG (with at least the sender
and target bytes present) iff both the sender and the target have a client
registry entry — on a failed lookup no frame is emitted — and a client
whose serial number is empty has `sendPeerMessage` return `false` with no
I/O. -/
theorem c7_peer_requires_permanent_ids :
    (∀ (mappings : List ClientMapping) (s t : Nat) (rest : List Nat),
       handlePeerMessage mappings (s :: t :: rest) ≠ [] ↔
         (findClientMappingById s mappings).isSome ∧
         (findClientMappingById t mappings).isSome) ∧
    (∀ (st : ClientState) (target : Nat) (msg : List Nat),
       st.serialNumber = [] → sendPeerMessage st target msg = (false, [])) := by
  constructor
  · intro mappings s t rest
    unfold handlePeerMessage
    cases hfs : findClientMappingById s mappings with
    | none => simp [hfs]
    | some ms =>
      cases hft : findClientMappingById t mappings with
      | none => simp [hfs, hft]
      | some mt2 =>
        simp only [hfs, hft, Option.isNone_some, Bool.false_eq_true, if_false,
          Option.isSome_some, and_self, iff_true]
        by_cases hsz : CAN_FRAME_DATA_SIZE < 1 + 1 + rest.length
        · simp only [hsz, if_true]
          apply sendExtendedMessage_ne_nil
          simp only [List.length_cons, List.length_take, MAX_EXTENDED_MSG_SIZE]
          omega
        · simp [hsz]
  · intro st target msg hser
    unfold sendPeerMessage
    cases hc : st.connected with
    | false => simp
    | true => simp [hser]

/-- C7 witness: concrete cases for forwarded, dropped, and serial-less
sends. -/
theorem c7_peer_requires_permanent_ids_witness :
    (handlePeerMessage [⟨1, [65], true⟩, ⟨2, [66], true⟩] [1, 2, 104, 105] ≠ [] ↔
       (findClientMappingById 1 [⟨1, [65], true⟩, ⟨2, [66], true⟩]).isSome ∧
       (findClientMappingById 2 [⟨1, [65], true⟩, ⟨2, [66], true⟩]).isSome) ∧
    sendPeerMessage ⟨101, true, [], [], emptyExtBuffer⟩ 1 [104, 105] = (false, []) :=
  ⟨c7_peer_requires_permanent_ids.1 [⟨1, [65], true⟩, ⟨2, [66], true⟩] 1 2 [104, 105],
   c7_peer_requires_permanent_ids.2 ⟨101, true, [], [], emptyExtBuffer⟩ 1 [104, 105] rfl⟩

/-- C6 (amended): when the client's own serial number is non-empty, an
`ID_RESPONSE` whose echoed serial does not match it is ignored with no state
change, both in the short-frame path (`handleIdAssignment`, for frames that
carry an echoed serial) and in the extended-frame completion path. -/
theorem c6_serial_mismatch_ignored (st : ClientState) (hserial : st.serialNumber ≠ []) :
    (∀ (assignedId flag serialLen : Nat) (srest : List Nat),
        srest.take serialLen ≠ st.serialNumber →
        handleIdAssignment st (assignedId :: flag :: serialLen :: srest) = st) ∧
    (∀ (senderId d0 serialLen : Nat) (srest : List Nat),
        srest.take serialLen ≠ st.serialNumber →
        clientExtIdResponse st senderId (d0 :: serialLen :: srest) = st) := by
  constructor
  · intro assignedId flag serialLen srest hmis
    simp [handleIdAssignment, hserial, hmis]
  · intro senderId d0 serialLen srest hmis
    simp [clientExtIdResponse, hserial, hmis]

/-- C6 counterexample to the claim as stated: a client whose own serial is
empty (anonymous connect) receives an `ID_RESPONSE` echoing serial "B2";
the echoed serial differs from the client's own serial, yet the client
adopts the id — the state changes. -/
theorem c6_serial_mismatch_counterexample :
    ([66, 50] ≠ (⟨255, false, [], [], emptyExtBuffer⟩ : ClientState).serialNumber) ∧
    handleIdAssignment ⟨255, false, [], [], emptyExtBuffer⟩ [7, 1, 2, 66, 50] ≠
      ⟨255, false, [], [], emptyExtBuffer⟩ := by
  decide

/-- C6 witness: the amended theorem applied to a client with serial "A1"
receiving an echo of "B2". -/
theorem c6_serial_mismatch_witness :
    handleIdAssignment ⟨255, false, [65, 49], [], emptyExtBuffer⟩ [7, 1, 2, 66, 50] =
      ⟨255, false, [65, 49], [], emptyExtBuffer⟩ :=
  (c6_serial_mismatch_ignored ⟨255, false, [65, 49], [], emptyExtBuffer⟩
    (by decide)).1 7 1 2 [66, 50] (by decide)

/-! ### C1: registry id range -/

theorem markRegistered_ids (s : List Nat) :
    ∀ (ms ms2 : List ClientMapping) (id : Nat),
      markRegistered s ms = some (ms2, id) →
      ms2.map (fun m => m.clientId) = ms.map (fun m => m.clientId) := by
  intro ms
  induction ms with
  | nil => intro ms2 id h; simp [markRegistered] at h
  | cons m rest ih =>
    intro ms2 id h
    by_cases hs : m.serialNumber = s
    · simp [markRegistered, hs] at h
      obtain ⟨h1, h2⟩ := h
      subst h1
      simp
    · simp only [markRegistered, hs, if_false] at h
      cases h2 : markRegistered s rest with
      | none => rw [h2] at h; simp at h
      | some p =>
        rw [h2] at h
        simp only [Option.map_some', Option.some.injEq] at h
        obtain ⟨h1, hb⟩ := Prod.mk.inj h.symm
        subst h1
        simp [ih p.1 p.2 (by rw [h2])]

theorem unregisterFlag_ids (c : Nat) :
    ∀ (ms ms2 : List ClientMapping),
      unregisterFlag c ms = some ms2 →
      ms2.map (fun m => m.clientId) = ms.map (fun m => m.clientId) := by
  intro ms
  induction ms with
  | nil => intro ms2 h; simp [unregisterFlag] at h
  | cons m rest ih =>
    intro ms2 h
    by_cases hs : m.clientId = c
    · simp [unregisterFlag, hs] at h
      subst h
      simp [hs]
    · simp only [unregisterFlag, hs, if_false] at h
      cases h2 : unregisterFlag c rest with
      | none => rw [h2] at h; simp at h
      | some l =>
        rw [h2] at h
        simp only [Option.map_some', Option.some.injEq] at h
        subst h
        simp [ih l h2]

theorem ids_bound_of_map_eq {ms ms2 : List ClientMapping}
    (hmap : ms2.map (fun m => m.clientId) = ms.map (fun m => m.clientId))
    (h : ∀ m ∈ ms, 1 ≤ m.clientId ∧ m.clientId ≤ ms.length) :
    ∀ m ∈ ms2, 1 ≤ m.clientId ∧ m.clientId ≤ ms2.length := by
  intro m2 hm2
  have hlen : ms2.length = ms.length := by
    have := congrArg List.length hmap
    simpa using this
  have : m2.clientId ∈ ms2.map (fun m => m.clientId) := List.mem_map_of_mem _ hm2
  rw [hmap] at this
  rcases List.mem_map.mp this with ⟨m1, hm1, he⟩
  rw [hlen, ← he]
  exact h m1 hm1

theorem findOrCreateClientId_RegInv (serial : List Nat) (ms : List ClientMapping)
    (nextID : Nat) (hnext : nextID = ms.length + 1) (hcap : ms.length ≤ MAX_CLIENT_MAPPINGS)
    (hids : ∀ m ∈ ms, 1 ≤ m.clientId ∧ m.clientId ≤ ms.length) :
    (findOrCreateClientId serial ms nextID).2.2 =
      (findOrCreateClientId serial ms nextID).2.1.length + 1 ∧
    (findOrCreateClientId serial ms nextID).2.1.length ≤ MAX_CLIENT_MAPPINGS ∧
    ∀ m ∈ (findOrCreateClientId serial ms nextID).2.1,
      1 ≤ m.clientId ∧ m.clientId ≤ (findOrCreateClientId serial ms nextID).2.1.length := by
  unfold findOrCreateClientId
  cases h2 : markRegistered serial ms with
  | some p =>
    have hmap := markRegistered_ids serial ms p.1 p.2 (by rw [h2])
    have hlen : p.1.length = ms.length := by
      have := congrArg List.length hmap
      simpa using this
    exact ⟨by simp [hlen, hnext], by simp [hlen, hcap], ids_bound_of_map_eq hmap hids⟩
  | none =>
    by_cases hfull : ms.length < MAX_CLIENT_MAPPINGS
    · have hwrap : ¬ nextID + 1 = 0xFF := by
        simp only [MAX_CLIENT_MAPPINGS] at hfull
        omega
      simp only [hfull, if_true, hwrap, if_false]
      refine ⟨by simp [hnext], by simp only [MAX_CLIENT_MAPPINGS] at hfull ⊢; simp; omega, ?_⟩
      intro m hm
      rcases List.mem_append.mp hm with h1 | h1
      · have := hids m h1
        simp only [List.length_append, List.length_cons, List.length_nil]
        omega
      · simp at h1
        subst h1
        simp [hnext]
    · simp only [hfull, if_false]
      exact ⟨hnext, hcap, hids⟩

theorem brokerStep_RegInv (st : BrokerState) (e : BrokerEvent)
    (h : RegInv st) : RegInv (brokerStep st e) := by
  obtain ⟨hnext, hcap, hids⟩ := h
  cases e with
  | subscribe c t => exact ⟨hnext, hcap, hids⟩
  | unsubscribe c t => exact ⟨hnext, hcap, hids⟩
  | idRequestAnon => exact ⟨hnext, hcap, hids⟩
  | restoreClient c => exact ⟨hnext, hcap, hids⟩
  | powerCycle => exact ⟨hnext, hcap, hids⟩
  | unregister c =>
    simp only [brokerStep]
    cases h2 : unregisterFlag c st.mappings with
    | none => exact ⟨hnext, hcap, hids⟩
    | some ms2 =>
      have hmap := unregisterFlag_ids c st.mappings ms2 h2
      have hlen : ms2.length = st.mappings.length := by
        have := congrArg List.length hmap
        simpa using this
      exact ⟨by simp [hlen, hnext], by simp [hlen, hcap],
        ids_bound_of_map_eq hmap hids⟩
  | idRequestSerial serial =>
    by_cases hs : serial = []
    · simp only [brokerStep, hs, if_pos rfl]
      exact ⟨hnext, hcap, hids⟩
    · simp only [brokerStep, hs, if_false]
      exact findOrCreateClientId_RegInv serial st.mappings st.nextClientID hnext hcap hids

/-- C1 (amended): every client id recorded in the client registry
(`_clientMappings`) of any reachable broker state lies in the permanent
range `1 .. 100` (in fact `1 .. 50`, since at most `MAX_CLIENT_MAPPINGS`
serials are ever mapped and `_nextClientID` never wraps).  The
`StoredSubscriptions` half of the original claim is false: see the
counterexample. -/
theorem c1_registry_ids_in_permanent_range :
    ∀ (evs : List BrokerEvent), ∀ m ∈ (runBroker evs).mappings,
      1 ≤ m.clientId ∧ m.clientId ≤ 100 := by
  have hinv : ∀ evs, RegInv (runBroker evs) := by
    intro evs
    refine foldl_preserve brokerStep_RegInv evs initialBroker ?_
    refine ⟨rfl, by simp [initialBroker, MAX_CLIENT_MAPPINGS], ?_⟩
    intro m hm
    simp [initialBroker] at hm
  intro evs m hm
  obtain ⟨hnext, hcap, hids⟩ := hinv evs
  have h := hids m hm
  simp only [MAX_CLIENT_MAPPINGS] at hcap
  omega

/-- C1 counterexample to the claim as stated: from the empty broker, a
single SUBSCRIBE frame carrying the temporary client id 101 reaches a state
whose `StoredSubscriptions` records id 101 — a temporary id (≥ 101) does
get an entry, because `handleSubscribe`/`addSubscription` persist whatever
client id the frame carries without consulting the registry. -/
theorem c1_stored_temporary_id_counterexample :
    (runBroker [BrokerEvent.subscribe 101 5]).stored = [⟨101, [5]⟩] ∧
    ¬ (101 : Nat) ≤ 100 := by
  decide

/-- C1 witness: the amended theorem applied to the state reached by one
by-serial registration. -/
theorem c1_registry_ids_witness :
    1 ≤ (ClientMapping.mk 1 [65] true).clientId ∧
    (ClientMapping.mk 1 [65] true).clientId ≤ 100 :=
  c1_registry_ids_in_permanent_range [BrokerEvent.idRequestSerial [65]]
    ⟨1, [65], true⟩ (by decide)

/-! ### C4: subscribe/unsubscribe round trip -/

theorem insertIntoRows_eq_none_iff (c t : Nat) :
    ∀ tbl : List Subscription,
      insertIntoRows c t tbl = none ↔ t ∉ tbl.map (fun r => r.topicHash) := by
  intro tbl
  induction tbl with
  | nil => simp [insertIntoRows]
  | cons r rest ih =>
    by_cases hht : r.topicHash = t
    · subst hht
      constructor
      · intro h
        by_cases hcm : c ∈ r.subscribers
        · simp [insertIntoRows, hcm] at h
        · by_cases hlen : r.subscribers.length < MAX_SUBSCRIBERS_PER_TOPIC <;>
            simp [insertIntoRows, hcm, hlen] at h
      · intro h
        exact absurd (by simp) h
    · simp only [insertIntoRows, hht, if_false]
      constructor
      · intro h
        cases h2 : insertIntoRows c t rest with
        | some p => rw [h2] at h; simp at h
        | none =>
          simp only [List.map_cons, List.mem_cons]
          intro hor
          rcases hor with h1 | h1
          · exact hht h1.symm
          · exact (ih.mp h2) h1
      · intro h
        simp only [List.map_cons, List.mem_cons] at h
        push_neg at h
        rw [ih.mpr h.2]
        rfl

theorem insertIntoRows_decomp (c t : Nat) :
    ∀ (pre : List Subscription) (r : Subscription) (post : List Subscription),
      t ∉ pre.map (fun x => x.topicHash) → r.topicHash = t →
      insertIntoRows c t (pre ++ r :: post) =
        some (pre ++ (if c ∈ r.subscribers then r
               else if r.subscribers.length < MAX_SUBSCRIBERS_PER_TOPIC then
                 { r with subscribers := r.subscribers ++ [c] }
               else r) :: post,
              if c ∈ r.subscribers then false else true) := by
  intro pre
  induction pre with
  | nil =>
    intro r post _ hr
    by_cases hcm : c ∈ r.subscribers
    · simp [insertIntoRows, hr, hcm]
    · by_cases hlen : r.subscribers.length < MAX_SUBSCRIBERS_PER_TOPIC <;>
        simp [insertIntoRows, hr, hcm, hlen]
  | cons q rest ih =>
    intro r post hpre hr
    simp only [List.map_cons, List.mem_cons] at hpre
    push_neg at hpre
    have hq : ¬ q.topicHash = t := fun h => hpre.1 h.symm
    rw [List.cons_append]
    simp only [insertIntoRows, hq, if_false]
    rw [ih r post hpre.2 hr]
    rfl

theorem removeFromRows_eq_none_iff (c t : Nat) :
    ∀ tbl : List Subscription, removeFromRows c t tbl = none ↔ ¬ memPair tbl c t := by
  intro tbl
  induction tbl with
  | nil => simp [removeFromRows, memPair]
  | cons r rest ih =>
    by_cases hc : r.topicHash = t ∧ c ∈ r.subscribers
    · constructor
      · intro h
        simp [removeFromRows, hc] at h
      · intro h
        exact absurd ⟨r, List.mem_cons_self r rest, hc⟩ h
    · simp only [removeFromRows, hc, if_false]
      constructor
      · intro h hmem
        cases h2 : removeFromRows c t rest with
        | some l => rw [h2] at h; simp at h
        | none =>
          rcases hmem with ⟨r2, hr2, hp⟩
          rcases List.mem_cons.mp hr2 with h1 | h1
          · exact hc (h1 ▸ hp)
          · exact (ih.mp h2) ⟨r2, h1, hp⟩
      · intro h
        have : ¬ memPair rest c t := by
          intro ⟨r2, hr2, hp⟩
          exact h ⟨r2, List.mem_cons_of_mem r hr2, hp⟩
        rw [ih.mpr this]
        rfl

theorem removeFromRows_append_of_none (c t : Nat) :
    ∀ (pre l : List Subscription), removeFromRows c t pre = none →
      removeFromRows c t (pre ++ l) =
        (removeFromRows c t l).map (fun l2 => pre ++ l2) := by
  intro pre
  induction pre with
  | nil => intro l _; simp
  | cons q rest ih =>
    intro l h
    by_cases hc : q.topicHash = t ∧ c ∈ q.subscribers
    · simp [removeFromRows, hc] at h
    · simp only [removeFromRows, hc, if_false] at h
      cases h2 : removeFromRows c t rest with
      | some x => rw [h2] at h; simp at h
      | none =>
        rw [List.cons_append]
        simp only [removeFromRows, hc, if_false]
        rw [ih l h2]
        cases removeFromRows c t l <;> simp

theorem replaceStored_eq_none_iff (c : Nat) (y : List Nat) :
    ∀ stored : List ClientSubscriptions,
      replaceStored c y stored = none ↔ findStoredSubscription c stored = none := by
  intro stored
  induction stored with
  | nil => simp [replaceStored, findStoredSubscription]
  | cons e rest ih =>
    by_cases he : e.clientId = c
    · simp [replaceStored, findStoredSubscription, he]
    · simp only [replaceStored, findStoredSubscription, he, if_false]
      cases h2 : replaceStored c y rest with
      | some l => simp only [h2, Option.map_some']; simp [← ih, h2]
      | none => simp only [h2, Option.map_none']; simp [← ih, h2]

theorem replaceStored_self (c : Nat) :
    ∀ (stored : List ClientSubscriptions) (e : ClientSubscriptions),
      findStoredSubscription c stored = some e →
      replaceStored c e.topics stored = some stored := by
  intro stored
  induction stored with
  | nil => intro e h; simp [findStoredSubscription] at h
  | cons q rest ih =>
    intro e h
    by_cases hq : q.clientId = c
    · simp [findStoredSubscription, hq] at h
      subst h
      simp only [replaceStored, hq, if_pos rfl, Option.some.injEq, List.cons.injEq, and_true]
      rw [← hq]
      simp
    · simp only [findStoredSubscription, hq, if_false] at h
      simp [replaceStored, hq, ih e h]

theorem replaceStored_replaceStored (c : Nat) (x y : List Nat) :
    ∀ (stored s1 : List ClientSubscriptions),
      replaceStored c x stored = some s1 →
      replaceStored c y s1 = replaceStored c y stored := by
  intro stored
  induction stored with
  | nil => intro s1 h; simp [replaceStored] at h
  | cons e rest ih =>
    intro s1 h
    by_cases he : e.clientId = c
    · simp [replaceStored, he] at h
      subst h
      simp [replaceStored, he]
    · simp only [replaceStored, he, if_false] at h
      cases h2 : replaceStored c x rest with
      | none => rw [h2] at h; simp at h
      | some l =>
        rw [h2] at h
        simp only [Option.map_some', Option.some.injEq] at h
        subst h
        simp only [replaceStored, he, if_false, ih l h2]

theorem storeClientSubscriptions_sync (c : Nat) (tbl : List Subscription)
    (stored : List ClientSubscriptions)
    (hsync : findStoredSubscription c stored = some ⟨c, clientTopicsOf c tbl⟩) :
    storeClientSubscriptions c tbl stored = stored := by
  have hrep := replaceStored_self c stored ⟨c, clientTopicsOf c tbl⟩ hsync
  simp only at hrep
  simp only [storeClientSubscriptions, hrep]

theorem storeClientSubscriptions_after (c : Nat) (tbl tbl2 : List Subscription)
    (stored : List ClientSubscriptions) (e : ClientSubscriptions)
    (hfind : findStoredSubscription c stored = some e)
    (htop : e.topics = clientTopicsOf c tbl) :
    storeClientSubscriptions c tbl (storeClientSubscriptions c tbl2 stored) = stored := by
  cases h1 : replaceStored c (clientTopicsOf c tbl2) stored with
  | none =>
    rw [replaceStored_eq_none_iff] at h1
    rw [h1] at hfind
    simp at hfind
  | some s1 =>
    have h2 : replaceStored c (clientTopicsOf c tbl) s1 =
        replaceStored c (clientTopicsOf c tbl) stored :=
      replaceStored_replaceStored c (clientTopicsOf c tbl2) (clientTopicsOf c tbl)
        stored s1 h1
    have h3 : replaceStored c (clientTopicsOf c tbl) stored = some stored := by
      have := replaceStored_self c stored e hfind
      rw [htop] at this
      exact this
    simp only [storeClientSubscriptions, h1, h2, h3]

theorem memPair_mem_hashes {l : List Subscription} {c t : Nat}
    (h : memPair l c t) : t ∈ l.map (fun r => r.topicHash) := by
  rcases h with ⟨r, hr, ht, _⟩
  exact ht ▸ List.mem_map_of_mem _ hr

theorem mem_hash_decomp (tbl : List Subscription) (t : Nat)
    (hnodup : (tbl.map (fun r => r.topicHash)).Nodup)
    (hmem : t ∈ tbl.map (fun r => r.topicHash)) :
    ∃ pre r post, tbl = pre ++ r :: post ∧ r.topicHash = t ∧
      t ∉ pre.map (fun x => x.topicHash) ∧ t ∉ post.map (fun x => x.topicHash) := by
  rcases List.mem_map.mp hmem with ⟨r, hr, hrt⟩
  rcases List.append_of_mem hr with ⟨pre, post, rfl⟩
  rw [List.map_append, List.map_cons] at hnodup
  obtain ⟨hnp, hncons, hdisj⟩ := List.nodup_append.mp hnodup
  refine ⟨pre, r, post, rfl, hrt, ?_, ?_⟩
  · intro hin
    exact hdisj hin (hrt ▸ List.mem_cons_self _ _)
  · intro hin
    exact (List.nodup_cons.mp hncons).1 (hrt ▸ hin)

/-- C4 (amended): provided the client is not already subscribed to the
topic, the active table satisfies the row invariants with no duplicate
topic rows, and the client's `StoredSubscriptions` entry exists and is in
sync with the active table, a SUBSCRIBE followed by an UNSUBSCRIBE of the
same `(client, topic)` pair restores both the active table and the stored
subscriptions exactly. -/
theorem c4_subscribe_unsubscribe_roundtrip (c t : Nat) (tbl : List Subscription)
    (stored : List ClientSubscriptions)
    (hinv : SubTableInv tbl)
    (hnodup : (tbl.map (fun r => r.topicHash)).Nodup)
    (hnotmem : ¬ memPair tbl c t)
    (hsync : findStoredSubscription c stored = some ⟨c, clientTopicsOf c tbl⟩) :
    removeSubscription c t (addSubscription c t tbl stored).1
      (addSubscription c t tbl stored).2 = (tbl, stored) := by
  by_cases hmem : t ∈ tbl.map (fun r => r.topicHash)
  · obtain ⟨pre, r, post, hdec, hrt, hpre, hpost⟩ := mem_hash_decomp tbl t hnodup hmem
    subst hdec
    have hcnot : c ∉ r.subscribers := fun hc =>
      hnotmem ⟨r, by simp, hrt, hc⟩
    have hinsert := insertIntoRows_decomp c t pre r post hpre hrt
    simp only [if_neg hcnot] at hinsert
    have hprenone : removeFromRows c t pre = none :=
      (removeFromRows_eq_none_iff c t pre).mpr
        (fun hp => hpre (memPair_mem_hashes hp))
    by_cases hroom : r.subscribers.length < MAX_SUBSCRIBERS_PER_TOPIC
    · rw [if_pos hroom] at hinsert
      simp only [addSubscription, hinsert]
      have hrem : removeFromRows c t
          (pre ++ { r with subscribers := r.subscribers ++ [c] } :: post) =
          some (pre ++ r :: post) := by
        rw [removeFromRows_append_of_none c t pre _ hprenone]
        have hcond : ({ r with subscribers := r.subscribers ++ [c] } : Subscription).topicHash
            = t ∧ c ∈ ({ r with subscribers := r.subscribers ++ [c] } : Subscription).subscribers := by
          exact ⟨hrt, by simp⟩
        simp only [removeFromRows, if_pos hcond]
        have herase : (r.subscribers ++ [c]).erase c = r.subscribers := by
          rw [List.erase_append_right _ hcnot, List.erase_cons_head, List.append_nil]
        have hne : r.subscribers ≠ [] := (hinv r (by simp)).2
        simp only [herase, hne, if_neg hne, Option.map_some']
        rfl
      simp only [removeSubscription, hrem]
      have hst := storeClientSubscriptions_after c (pre ++ r :: post)
        (pre ++ { r with subscribers := r.subscribers ++ [c] } :: post) stored
        ⟨c, clientTopicsOf c (pre ++ r :: post)⟩ hsync rfl
      rw [hst]
    · rw [if_neg hroom] at hinsert
      simp only [addSubscription, hinsert]
      rw [storeClientSubscriptions_sync c (pre ++ r :: post) stored hsync]
      have hrem : removeFromRows c t (pre ++ r :: post) = none :=
        (removeFromRows_eq_none_iff c t (pre ++ r :: post)).mpr hnotmem
      simp only [removeSubscription, hrem]
  · have hins : insertIntoRows c t tbl = none :=
      (insertIntoRows_eq_none_iff c t tbl).mpr hmem
    by_cases hlen : tbl.length < MAX_SUBSCRIPTIONS
    · simp only [addSubscription, hins, hlen, if_true]
      have hrem : removeFromRows c t (tbl ++ [⟨t, [c]⟩]) = some tbl := by
        rw [removeFromRows_append_of_none c t tbl _
          ((removeFromRows_eq_none_iff c t tbl).mpr hnotmem)]
        have hcond : (⟨t, [c]⟩ : Subscription).topicHash = t ∧
            c ∈ (⟨t, [c]⟩ : Subscription).subscribers := ⟨rfl, by simp⟩
        simp [removeFromRows, hcond]
      simp only [removeSubscription, hrem]
      have hst := storeClientSubscriptions_after c tbl (tbl ++ [(⟨t, [c]⟩ : Subscription)])
        stored ⟨c, clientTopicsOf c tbl⟩ hsync rfl
      rw [hst]
    · simp only [addSubscription, hins, hlen, if_false]
      have hrem : removeFromRows c t tbl = none :=
        (removeFromRows_eq_none_iff c t tbl).mpr hnotmem
      simp only [removeSubscription, hrem]

/-- C4 counterexample to the claim as stated: a client already subscribed
to the topic.  The SUBSCRIBE is a no-op, the UNSUBSCRIBE then removes the
subscription, so the pair of operations empties both the active row and the
stored entry instead of restoring them. -/
theorem c4_counterexample :
    removeSubscription 1 5 (addSubscription 1 5 [⟨5, [1]⟩] [⟨1, [5]⟩]).1
      (addSubscription 1 5 [⟨5, [1]⟩] [⟨1, [5]⟩]).2 = ([], [⟨1, []⟩]) ∧
    (([] : List Subscription), [(⟨1, []⟩ : ClientSubscriptions)]) ≠
      ([⟨5, [1]⟩], [⟨1, [5]⟩]) := by
  decide

/-- C4 witness: the amended theorem at a concrete in-sync state where
client 1 is not yet subscribed to topic 5. -/
theorem c4_subscribe_unsubscribe_witness :
    removeSubscription 1 5 (addSubscription 1 5 [⟨5, [2]⟩] [⟨1, []⟩, ⟨2, [5]⟩]).1
      (addSubscription 1 5 [⟨5, [2]⟩] [⟨1, []⟩, ⟨2, [5]⟩]).2 =
      ([⟨5, [2]⟩], [⟨1, []⟩, ⟨2, [5]⟩]) :=
  c4_subscribe_unsubscribe_roundtrip 1 5 [⟨5, [2]⟩] [⟨1, []⟩, ⟨2, [5]⟩]
    (by decide) (by decide) (by decide) (by decide)

/-! ### C2: begin() rebuilds the active table from the store -/

theorem restoreAll_eq_foldl (stored : List ClientSubscriptions) :
    ∀ tbl : List Subscription,
      restoreAllSubscriptionsToActiveTable stored tbl =
        (storedPairs stored).foldl (fun a p => addSubscriptionTable p.1 p.2 a) tbl := by
  induction stored with
  | nil => intro tbl; rfl
  | cons e rest ih =>
    intro tbl
    have hcons : restoreAllSubscriptionsToActiveTable (e :: rest) tbl =
        restoreAllSubscriptionsToActiveTable rest
          ((e.topics.take MAX_STORED_SUBS_PER_CLIENT).foldl
            (fun acc2 t => addSubscriptionTable e.clientId t acc2) tbl) := rfl
    rw [hcons, ih]
    simp only [storedPairs, List.flatMap_cons, List.foldl_append, List.foldl_map]

theorem memStored_iff (stored : List ClientSubscriptions) (c t : Nat) :
    memStored stored c t ↔ (c, t) ∈ storedPairs stored := by
  unfold memStored storedPairs
  rw [List.mem_flatMap]
  constructor
  · rintro ⟨e, he, hc, ht⟩
    exact ⟨e, he, List.mem_map.mpr ⟨t, ht, by rw [hc]⟩⟩
  · rintro ⟨e, he, hm⟩
    rcases List.mem_map.mp hm with ⟨x, hx, hp⟩
    obtain ⟨h1, h2⟩ := Prod.mk.inj hp
    exact ⟨e, he, h1, h2 ▸ hx⟩

theorem length_lt_of_nodup_subset {α : Type} [DecidableEq α] (l m : List α) (a : α)
    (hnd : l.Nodup) (hsub : ∀ x ∈ l, x ∈ m) (ha : a ∈ m) (hna : a ∉ l) :
    l.length < m.dedup.length := by
  have hnd2 : (a :: l).Nodup := List.nodup_cons.mpr ⟨hna, hnd⟩
  have hsub2 : (a :: l) ⊆ m.dedup := by
    intro x hx
    rcases List.mem_cons.mp hx with h | h
    · exact List.mem_dedup.mpr (h ▸ ha)
    · exact List.mem_dedup.mpr (hsub x h)
  have := (List.Nodup.subperm hnd2 hsub2).length_le
  simpa using this

theorem memPair_append_cons (pre post : List Subscription) (r : Subscription) (c t : Nat) :
    memPair (pre ++ r :: post) c t ↔
      memPair pre c t ∨ (r.topicHash = t ∧ c ∈ r.subscribers) ∨ memPair post c t := by
  constructor
  · rintro ⟨r2, hr2, hp⟩
    rcases List.mem_append.mp hr2 with h | h
    · exact Or.inl ⟨r2, h, hp⟩
    · rcases List.mem_cons.mp h with h | h
      · subst h
        exact Or.inr (Or.inl hp)
      · exact Or.inr (Or.inr ⟨r2, h, hp⟩)
  · rintro (⟨r2, h, hp⟩ | ⟨h1, h2⟩ | ⟨r2, h, hp⟩)
    · exact ⟨r2, List.mem_append_left _ h, hp⟩
    · exact ⟨r, List.mem_append_right _ (List.mem_cons_self _ _), h1, h2⟩
    · exact ⟨r2, List.mem_append_right _ (List.mem_cons_of_mem _ h), hp⟩

theorem restore_step (P done : List (Nat × Nat)) (c t : Nat) (tbl : List Subscription)
    (hcapT : TopicCapOK P) (hcapC : ClientCapOK P)
    (hdone : ∀ p ∈ done, p ∈ P) (hct : (c, t) ∈ P)
    (hinv : RestoreInv P done tbl) :
    RestoreInv P (done ++ [(c, t)]) (addSubscriptionTable c t tbl) := by
  obtain ⟨hTnd, hSnd, hTP, hPairs, hBack⟩ := hinv
  have htP : t ∈ P.map Prod.snd := List.mem_map.mpr ⟨(c, t), hct, rfl⟩
  by_cases hmem : t ∈ tbl.map (fun r => r.topicHash)
  · obtain ⟨pre, r, post, hdec, hrt, hpre, hpost⟩ := mem_hash_decomp tbl t hTnd hmem
    subst hdec
    have hinsert := insertIntoRows_decomp c t pre r post hpre hrt
    by_cases hcm : c ∈ r.subscribers
    · simp only [if_pos hcm] at hinsert
      simp only [addSubscriptionTable, hinsert]
      refine ⟨hTnd, hSnd, hTP, ?_, ?_⟩
      · intro r2 hr2 x hx
        exact List.mem_append_left _ (hPairs r2 hr2 x hx)
      · intro x t2 hx
        rcases List.mem_append.mp hx with h | h
        · exact hBack x t2 h
        · simp at h
          obtain ⟨h1, h2⟩ := h
          subst h1
          subst h2
          exact ⟨r, List.mem_append_right _ (List.mem_cons_self _ _), hrt, hcm⟩
    · have hroom : r.subscribers.length < MAX_SUBSCRIBERS_PER_TOPIC := by
        have hr_mem : r ∈ pre ++ r :: post :=
          List.mem_append_right _ (List.mem_cons_self _ _)
        have hlt := length_lt_of_nodup_subset r.subscribers
          ((P.filter (fun q => q.2 = t)).map Prod.fst) c
          (hSnd r hr_mem)
          (by
            intro x hx
            have hd := hPairs r hr_mem x hx
            have hp : (x, t) ∈ P := by
              have := hdone _ hd
              rw [hrt] at this
              exact this
            refine List.mem_map.mpr ⟨(x, t), ?_, rfl⟩
            rw [List.mem_filter]
            exact ⟨hp, by simp⟩)
          (by
            refine List.mem_map.mpr ⟨(c, t), ?_, rfl⟩
            rw [List.mem_filter]
            exact ⟨hct, by simp⟩)
          hcm
        exact lt_of_lt_of_le hlt (hcapC t htP)
      simp only [if_neg hcm, if_pos hroom] at hinsert
      simp only [addSubscriptionTable, hinsert]
      have hmapEq :
          ((pre ++ { r with subscribers := r.subscribers ++ [c] } :: post).map
            (fun r => r.topicHash)) =
          ((pre ++ r :: post).map (fun r => r.topicHash)) := by
        simp
      refine ⟨by rw [hmapEq]; exact hTnd, ?_, ?_, ?_, ?_⟩
      · intro r2 hr2
        rcases List.mem_append.mp hr2 with h | h
        · exact hSnd r2 (List.mem_append_left _ h)
        · rcases List.mem_cons.mp h with h | h
          · subst h
            simp only [List.nodup_append, List.nodup_cons, List.nodup_nil]
            refine ⟨hSnd r (List.mem_append_right _ (List.mem_cons_self _ _)), by simp, ?_⟩
            intro x hx hxc
            rw [List.mem_singleton] at hxc
            subst hxc
            exact hcm hx
          · exact hSnd r2 (List.mem_append_right _ (List.mem_cons_of_mem _ h))
      · intro r2 hr2
        rcases List.mem_append.mp hr2 with h | h
        · exact hTP r2 (List.mem_append_left _ h)
        · rcases List.mem_cons.mp h with h | h
          · subst h
            simpa [hrt] using htP
          · exact hTP r2 (List.mem_append_right _ (List.mem_cons_of_mem _ h))
      · intro r2 hr2 x hx
        rcases List.mem_append.mp hr2 with h | h
        · exact List.mem_append_left _ (hPairs r2 (List.mem_append_left _ h) x hx)
        · rcases List.mem_cons.mp h with h | h
          · subst h
            simp only at hx
            rcases List.mem_append.mp hx with h2 | h2
            · exact List.mem_append_left _
                (hPairs r (List.mem_append_right _ (List.mem_cons_self _ _)) x h2)
            · rw [List.mem_singleton] at h2
              subst h2
              simp [hrt]
          · exact List.mem_append_left _
              (hPairs r2 (List.mem_append_right _ (List.mem_cons_of_mem _ h)) x hx)
      · intro x t2 hx
        rcases List.mem_append.mp hx with h | h
        · have := hBack x t2 h
          rw [memPair_append_cons] at this ⊢
          rcases this with h1 | h1 | h1
          · exact Or.inl h1
          · exact Or.inr (Or.inl ⟨h1.1, List.mem_append_left _ h1.2⟩)
          · exact Or.inr (Or.inr h1)
        · simp at h
          obtain ⟨h1, h2⟩ := h
          subst h1
          subst h2
          rw [memPair_append_cons]
          exact Or.inr (Or.inl ⟨hrt, by simp⟩)
  · have hins : insertIntoRows c t tbl = none :=
      (insertIntoRows_eq_none_iff c t tbl).mpr hmem
    have hlen : tbl.length < MAX_SUBSCRIPTIONS := by
      have hlt := length_lt_of_nodup_subset (tbl.map (fun r => r.topicHash))
        (P.map Prod.snd) t hTnd (fun x hx => by
          rcases List.mem_map.mp hx with ⟨r2, hr2, he⟩
          exact he ▸ hTP r2 hr2) htP hmem
      have := lt_of_lt_of_le hlt hcapT
      simpa using this
    simp only [addSubscriptionTable, hins, hlen, if_true]
    refine ⟨?_, ?_, ?_, ?_, ?_⟩
    · simp only [List.map_append, List.map_cons, List.map_nil]
      rw [List.nodup_append]
      refine ⟨hTnd, by simp, ?_⟩
      intro x hx hxt
      simp at hxt
      subst hxt
      exact hmem hx
    · intro r2 hr2
      rcases List.mem_append.mp hr2 with h | h
      · exact hSnd r2 h
      · simp at h
        subst h
        simp
    · intro r2 hr2
      rcases List.mem_append.mp hr2 with h | h
      · exact hTP r2 h
      · simp at h
        subst h
        simpa using htP
    · intro r2 hr2 x hx
      rcases List.mem_append.mp hr2 with h | h
      · exact List.mem_append_left _ (hPairs r2 h x hx)
      · simp at h
        subst h
        simp at hx
        subst hx
        simp
    · intro x t2 hx
      rcases List.mem_append.mp hx with h | h
      · rcases hBack x t2 h with ⟨r2, hr2, hp⟩
        exact ⟨r2, List.mem_append_left _ hr2, hp⟩
      · simp at h
        refine ⟨⟨t, [c]⟩, List.mem_append_right _ (by simp), ?_, ?_⟩
        · show t = t2
          omega
        · show x ∈ [c]
          simp only [List.mem_singleton]
          omega

theorem restore_go (P : List (Nat × Nat)) (hcapT : TopicCapOK P) (hcapC : ClientCapOK P) :
    ∀ (rest done : List (Nat × Nat)) (tbl : List Subscription),
      done ++ rest = P → RestoreInv P done tbl →
      RestoreInv P (done ++ rest)
        (rest.foldl (fun a p => addSubscriptionTable p.1 p.2 a) tbl) := by
  intro rest
  induction rest with
  | nil =>
    intro done tbl hP hinv
    simpa using hinv
  | cons p ps ih =>
    intro done tbl hP hinv
    obtain ⟨c, t⟩ := p
    have hct : (c, t) ∈ P := by
      rw [← hP]
      exact List.mem_append_right _ (List.mem_cons_self _ _)
    have hdone : ∀ q ∈ done, q ∈ P := by
      intro q hq
      rw [← hP]
      exact List.mem_append_left _ hq
    have hstep := restore_step P done c t tbl hcapT hcapC hdone hct hinv
    have hP2 : (done ++ [(c, t)]) ++ ps = P := by
      rw [List.append_assoc]
      simpa using hP
    have := ih (done ++ [(c, t)]) (addSubscriptionTable c t tbl) hP2 hstep
    rw [List.append_assoc] at this
    simpa using this

/-- C2 (amended): after `begin()` loads a valid `StoredSubscriptions`
namespace (at most `MAX_CLIENT_MAPPINGS` entries) whose entries reference at
most 20 distinct topics and at most 10 distinct clients per topic,
`restoreAllSubscriptionsToActiveTable` makes the active table hold exactly
the union of the stored pairs: `(c, t)` is active iff it is stored.  Without
the cap provisos the equality fails — entries beyond the fixed capacities
are silently dropped (see the counterexample). -/
theorem c2_begin_restores_union (stored : List ClientSubscriptions)
    (hvalid : stored.length ≤ MAX_CLIENT_MAPPINGS)
    (hcapT : TopicCapOK (storedPairs stored))
    (hcapC : ClientCapOK (storedPairs stored)) :
    ∀ c t, memPair (restoreAllSubscriptionsToActiveTable stored []) c t ↔
      memStored stored c t := by
  intro c t
  rw [restoreAll_eq_foldl, memStored_iff]
  have hinv0 : RestoreInv (storedPairs stored) [] [] := by
    refine ⟨by simp, by simp, by simp, by simp, ?_⟩
    intro x t2 hx
    simp at hx
  have hfin := restore_go (storedPairs stored) hcapT hcapC (storedPairs stored) [] []
    (by simp) hinv0
  rw [List.nil_append] at hfin
  obtain ⟨_, _, _, hfw, hbk⟩ := hfin
  constructor
  · rintro ⟨r, hr, hrt, hcm⟩
    have := hfw r hr c hcm
    rw [hrt] at this
    exact this
  · exact hbk c t

/-- C2 counterexample to the claim as stated: a valid store (21 entries,
within the 50-entry limit, one topic each) whose 21st distinct topic
exceeds the 20-row active-table capacity; the stored pair `(21, 20)` is
silently dropped by `restoreAllSubscriptionsToActiveTable`, so the active
table is a strict subset of the stored union after `begin()`. -/
theorem c2_restore_drops_counterexample :
    ((List.range 21).map (fun i => ClientSubscriptions.mk (i + 1) [i])).length ≤
      MAX_CLIENT_MAPPINGS ∧
    memStored ((List.range 21).map (fun i => ClientSubscriptions.mk (i + 1) [i])) 21 20 ∧
    ¬ memPair (restoreAllSubscriptionsToActiveTable
        ((List.range 21).map (fun i => ClientSubscriptions.mk (i + 1) [i])) []) 21 20 := by
  decide

/-- C2 witness: the amended theorem applied to a concrete two-client
store. -/
theorem c2_begin_restores_union_witness :
    (memPair (restoreAllSubscriptionsToActiveTable [⟨1, [5, 7]⟩, ⟨2, [5]⟩] []) 2 5 ↔
      memStored [⟨1, [5, 7]⟩, ⟨2, [5]⟩] 2 5) ∧
    (memPair (restoreAllSubscriptionsToActiveTable [⟨1, [5, 7]⟩, ⟨2, [5]⟩] []) 2 7 ↔
      memStored [⟨1, [5, 7]⟩, ⟨2, [5]⟩] 2 7) :=
  ⟨c2_begin_restores_union [⟨1, [5, 7]⟩, ⟨2, [5]⟩] (by decide) (by decide) (by decide) 2 5,
   c2_begin_restores_union [⟨1, [5, 7]⟩, ⟨2, [5]⟩] (by decide) (by decide) (by decide) 2 7⟩

/-! ### C5: extended-message round trip -/

theorem extId_decode (mt i tot : Nat) (hmt : mt < 256) (hi : i < 256)
    (htot : tot < 8192) :
    ((((mt <<< 21) ||| (i <<< 13)) ||| tot) >>> 21) &&& 0xFF = mt ∧
    ((((mt <<< 21) ||| (i <<< 13)) ||| tot) >>> 13) &&& 0xFF = i ∧
    (((mt <<< 21) ||| (i <<< 13)) ||| tot) &&& 0x1FFF = tot := by
  refine ⟨?_, ?_, ?_⟩
  · rw [show (0xFF : Nat) = 2 ^ 8 - 1 from rfl, Nat.and_pow_two_sub_one_eq_mod]
    apply Nat.eq_of_testBit_eq
    intro j
    rw [Nat.testBit_mod_two_pow, Nat.testBit_shiftRight]
    simp only [Nat.testBit_or, Nat.testBit_shiftLeft]
    by_cases hj : j < 8
    · have h1 : 21 + j - 21 = j := by omega
      have h2 : Nat.testBit i (21 + j - 13) = false := by
        apply Nat.testBit_lt_two_pow
        calc i < 2 ^ 8 := hi
        _ ≤ 2 ^ (21 + j - 13) := Nat.pow_le_pow_right (by norm_num) (by omega)
      have h3 : Nat.testBit tot (21 + j) = false := by
        apply Nat.testBit_lt_two_pow
        calc tot < 2 ^ 13 := htot
        _ ≤ 2 ^ (21 + j) := Nat.pow_le_pow_right (by norm_num) (by omega)
      simp [hj, h1, h2, h3, Nat.le_add_right]
    · have h2 : Nat.testBit mt j = false := by
        apply Nat.testBit_lt_two_pow
        calc mt < 2 ^ 8 := hmt
        _ ≤ 2 ^ j := Nat.pow_le_pow_right (by norm_num) (by omega)
      simp [hj, h2]
  · rw [show (0xFF : Nat) = 2 ^ 8 - 1 from rfl, Nat.and_pow_two_sub_one_eq_mod]
    apply Nat.eq_of_testBit_eq
    intro j
    rw [Nat.testBit_mod_two_pow, Nat.testBit_shiftRight]
    simp only [Nat.testBit_or, Nat.testBit_shiftLeft]
    by_cases hj : j < 8
    · have h1 : ¬ 13 + j ≥ 21 := by omega
      have h2 : 13 + j - 13 = j := by omega
      have h3 : Nat.testBit tot (13 + j) = false := by
        apply Nat.testBit_lt_two_pow
        calc tot < 2 ^ 13 := htot
        _ ≤ 2 ^ (13 + j) := Nat.pow_le_pow_right (by norm_num) (by omega)
      simp [hj, h1, h2, h3]
    · have h2 : Nat.testBit i j = false := by
        apply Nat.testBit_lt_two_pow
        calc i < 2 ^ 8 := hi
        _ ≤ 2 ^ j := Nat.pow_le_pow_right (by norm_num) (by omega)
      simp [hj, h2]
  · rw [show (0x1FFF : Nat) = 2 ^ 13 - 1 from rfl, Nat.and_pow_two_sub_one_eq_mod]
    apply Nat.eq_of_testBit_eq
    intro j
    rw [Nat.testBit_mod_two_pow]
    simp only [Nat.testBit_or, Nat.testBit_shiftLeft]
    by_cases hj : j < 13
    · have h1 : ¬ j ≥ 21 := by omega
      have h2 : ¬ j ≥ 13 := by omega
      simp [hj, h1, h2]
    · have h2 : Nat.testBit tot j = false := by
        apply Nat.testBit_lt_two_pow
        calc tot < 2 ^ 13 := htot
        _ ≤ 2 ^ j := Nat.pow_le_pow_right (by norm_num) (by omega)
      simp [hj, h2]

theorem take_add_eq {α : Type} (l : List α) (m n : Nat) :
    l.take (m + n) = l.take m ++ (l.drop m).take n := by
  rw [← List.take_append_drop m (l.take (m + n)), List.take_take, List.take_drop]
  simp [Nat.min_def]

theorem reassemble_step (mt b j tot : Nat) (bs : List Nat)
    (hmt : mt < 256) (hj1 : 1 ≤ j) (hj : j < tot) (htot16 : tot ≤ 16)
    (hlower : 8 * (tot - 1) < bs.length + 1) :
    processExtendedFrame 0
      ⟨mt, b, bs.take (8 * j - 1), tot * 8, 0, true⟩
      ⟨((mt <<< 21) ||| (j <<< 13)) ||| tot, ((b :: bs).drop (j * 8)).take 8⟩ =
    (if (j : Int) = (tot : Int) - 1 then
       (emptyExtBuffer, some ⟨mt, b, bs.take (8 * j + 7)⟩)
     else (⟨mt, b, bs.take (8 * (j + 1) - 1), tot * 8, 0, true⟩, none)) := by
  have hdec := extId_decode mt j tot hmt (by omega) (by omega)
  have hjne : ¬ (j = 0) := by omega
  have hmod : tot % 256 = tot := Nat.mod_eq_of_lt (by omega)
  have hdrop : (b :: bs).drop (j * 8) = bs.drop (j * 8 - 1) := by
    have h8 : j * 8 = (j * 8 - 1) + 1 := by omega
    calc (b :: bs).drop (j * 8) = (b :: bs).drop ((j * 8 - 1) + 1) := by rw [← h8]
    _ = bs.drop (j * 8 - 1) := by rw [List.drop_succ_cons]
  have hminlen : (8 * j - 1) ⊓ bs.length = 8 * j - 1 := by omega
  have happ2 : List.take (8 * j - 1) bs ++
      List.take (128 - (8 * j - 1)) (List.take 8 (List.drop (j * 8 - 1) bs)) =
      List.take (8 * (j + 1) - 1) bs := by
    rw [List.take_take]
    have hmin : min (128 - (8 * j - 1)) 8 = 8 := by omega
    rw [hmin]
    have hjm : j * 8 - 1 = 8 * j - 1 := by omega
    rw [hjm, ← take_add_eq]
    have h78 : 8 * j - 1 + 8 = 8 * (j + 1) - 1 := by omega
    rw [h78]
  have h87 : 8 * (j + 1) - 1 = 8 * j + 7 := by omega
  by_cases hfin : (j : Int) = (tot : Int) - 1
  · simp only [processExtendedFrame, hdec.1, hdec.2.1, hdec.2.2, hmod, hjne, if_false,
      hdrop, EXTENDED_MSG_TIMEOUT, MAX_EXTENDED_MSG_SIZE, List.length_take, hminlen,
      happ2, hfin, if_true, h87]
    simp
    rw [hminlen, happ2, h87]
  · simp only [processExtendedFrame, hdec.1, hdec.2.1, hdec.2.2, hmod, hjne, if_false,
      hdrop, EXTENDED_MSG_TIMEOUT, MAX_EXTENDED_MSG_SIZE, List.length_take, hminlen,
      happ2, hfin]
    simp
    rw [hminlen, happ2]

theorem reassemble_go (mt b : Nat) (bs : List Nat) (tot : Nat)
    (hmt : mt < 256) (htot16 : tot ≤ 16)
    (hcover : bs.length + 1 ≤ 8 * tot) (hlower : 8 * (tot - 1) < bs.length + 1) :
    ∀ (k j : Nat), 1 ≤ j → 1 ≤ k → j + k = tot →
      runReassembly ⟨mt, b, bs.take (8 * j - 1), tot * 8, 0, true⟩
        ((List.range' j k).map (fun fr =>
          ((0 : Nat), (⟨((mt <<< 21) ||| (fr <<< 13)) ||| tot,
            ((b :: bs).drop (fr * 8)).take 8⟩ : ExtFrame)))) =
      (emptyExtBuffer, [⟨mt, b, bs⟩]) := by
  intro k
  induction k with
  | zero =>
    intro j _ hk _
    exact absurd hk (by norm_num)
  | succ k ih =>
    intro j hj _ hsum
    rw [List.range'_succ, List.map_cons]
    have hstep := reassemble_step mt b j tot bs hmt hj (by omega) htot16 hlower
    by_cases hkz : k = 0
    · subst hkz
      have hfin : (j : Int) = (tot : Int) - 1 := by omega
      rw [if_pos hfin] at hstep
      simp only [runReassembly, hstep, List.range'_zero, List.map_nil]
      have hall : bs.take (8 * j + 7) = bs := List.take_of_length_le (by omega)
      rw [hall]
    · have hfin : ¬ ((j : Int) = (tot : Int) - 1) := by omega
      rw [if_neg hfin] at hstep
      simp only [runReassembly, hstep]
      exact ih (j + 1) (by omega) (by omega) (by omega)

theorem reassemble_first (mt b tot : Nat) (bs : List Nat)
    (hmt : mt < 256) (htot2 : 2 ≤ tot) (htot16 : tot ≤ 16) :
    processExtendedFrame 0 emptyExtBuffer
      ⟨((mt <<< 21) ||| (0 <<< 13)) ||| tot, ((b :: bs).drop (0 * 8)).take 8⟩ =
    (⟨mt, b, bs.take 7, tot * 8, 0, true⟩, none) := by
  have hdec := extId_decode mt 0 tot hmt (by norm_num) (by omega)
  have hmod : tot % 256 = tot := Nat.mod_eq_of_lt (by omega)
  have hchunk : (((b :: bs).drop (0 * 8)).take 8 : List Nat) = b :: bs.take 7 := rfl
  have hfin : ¬ (((0 : Nat) : Int) = (tot : Int) - 1) := by omega
  simp only [processExtendedFrame, hdec.1, hdec.2.1, hdec.2.2, hmod, hchunk,
    EXTENDED_MSG_TIMEOUT, MAX_EXTENDED_MSG_SIZE, CAN_FRAME_DATA_SIZE, hfin,
    emptyExtBuffer]
  simp [List.take_take]

theorem extPayload_map_ext (g : Nat → ExtFrame) :
    ∀ l : List Nat,
      extPayload (l.map (fun fr => Frame.ext (g fr))) =
        l.map (fun fr => ((0 : Nat), g fr)) := by
  intro l
  induction l with
  | nil => rfl
  | cons x xs ih =>
    simp only [List.map_cons, extPayload, List.filterMap_cons] at ih ⊢
    rw [ih]

/-- C5 (amended): for a payload of 9 to 128 bytes (the multi-frame path of
`sendExtendedMessage`), feeding the emitted extended frames, in order and
without loss, through `processExtendedFrame` on a receiving endpoint with a
fresh buffer delivers exactly one completed message: the first payload byte
surfaces as `senderId` and the remaining bytes as the data buffer.
Payloads of at most 8 bytes leave `sendExtendedMessage` as a single
standard frame that never reaches `onExtendedMessageComplete` (see the
counterexample). -/
theorem c5_extended_roundtrip (mt b : Nat) (bs : List Nat)
    (hmt : mt < 256) (h9 : 9 ≤ bs.length + 1) (h128 : bs.length + 1 ≤ 128) :
    runReassembly emptyExtBuffer (extPayload (sendExtendedMessage mt (b :: bs))) =
      (emptyExtBuffer, [⟨mt, b, bs⟩]) := by
  obtain ⟨tot, htot⟩ : ∃ tot, tot = (bs.length + 8) / 8 := ⟨_, rfl⟩
  have htot2 : 2 ≤ tot := by omega
  have htot16 : tot ≤ 16 := by omega
  have hcover : bs.length + 1 ≤ 8 * tot := by omega
  have hlower : 8 * (tot - 1) < bs.length + 1 := by omega
  have hframes : extPayload (sendExtendedMessage mt (b :: bs)) =
      (List.range tot).map (fun fr =>
        ((0 : Nat), (⟨((mt <<< 21) ||| (fr <<< 13)) ||| tot,
          ((b :: bs).drop (fr * CAN_FRAME_DATA_SIZE)).take CAN_FRAME_DATA_SIZE⟩ : ExtFrame))) := by
    unfold sendExtendedMessage
    have hle : ¬ ((b :: bs).length ≤ CAN_FRAME_DATA_SIZE) := by
      simp [CAN_FRAME_DATA_SIZE]
      omega
    have htoteq : (((b :: bs).length + CAN_FRAME_DATA_SIZE - 1) / CAN_FRAME_DATA_SIZE) % 256
        = tot := by
      simp only [CAN_FRAME_DATA_SIZE, List.length_cons]
      omega
    simp only [hle, if_false, htoteq]
    exact extPayload_map_ext _ (List.range tot)
  rw [hframes]
  obtain ⟨m, hm⟩ : ∃ m, tot = m + 1 := ⟨tot - 1, by omega⟩
  have hsplit : List.range tot = 0 :: List.range' 1 (tot - 1) := by
    rw [List.range_eq_range', hm, List.range'_succ]
    simp
  rw [hsplit, List.map_cons]
  have hfirst := reassemble_first mt b tot bs hmt htot2 htot16
  have hchunk0 : (((b :: bs).drop (0 * CAN_FRAME_DATA_SIZE)).take CAN_FRAME_DATA_SIZE
      : List Nat) = ((b :: bs).drop (0 * 8)).take 8 := rfl
  simp only [hchunk0, runReassembly, hfirst]
  have hgo := reassemble_go mt b bs tot hmt htot16 hcover hlower (tot - 1) 1
    (le_refl 1) (by omega) (by omega)
  have h7 : (8 * 1 - 1 : Nat) = 7 := rfl
  rw [h7] at hgo
  have hchunkC : (fun fr => ((0 : Nat), (⟨((mt <<< 21) ||| (fr <<< 13)) ||| tot,
      ((b :: bs).drop (fr * CAN_FRAME_DATA_SIZE)).take CAN_FRAME_DATA_SIZE⟩ : ExtFrame))) =
      (fun fr => ((0 : Nat), (⟨((mt <<< 21) ||| (fr <<< 13)) ||| tot,
      ((b :: bs).drop (fr * 8)).take 8⟩ : ExtFrame))) := rfl
  rw [hchunkC]
  exact hgo

/-- C5 counterexample to the claim as stated: a 3-byte payload (at most
128 bytes) is emitted by `sendExtendedMessage` as a single *standard*
frame; `processExtendedFrame` ignores non-extended frames, so nothing is
ever delivered to `onExtendedMessageComplete` for payloads of 8 bytes or
fewer. -/
theorem c5_short_payload_counterexample :
    sendExtendedMessage 0x03 [1, 2, 3] = [Frame.std 0x03 [1, 2, 3]] ∧
    (runReassembly emptyExtBuffer (extPayload (sendExtendedMessage 0x03 [1, 2, 3]))).2
      = [] := by
  decide

/-- C5 witness: the amended round trip at a concrete 10-byte payload. -/
theorem c5_extended_roundtrip_witness :
    runReassembly emptyExtBuffer
      (extPayload (sendExtendedMessage 0x03 (9 :: [1, 2, 3, 4, 5, 6, 7, 8, 10]))) =
      (emptyExtBuffer, [⟨0x03, 9, [1, 2, 3, 4, 5, 6, 7, 8, 10]⟩]) :=
  c5_extended_roundtrip 0x03 9 [1, 2, 3, 4, 5, 6, 7, 8, 10]
    (by norm_num) (by norm_num) (by norm_num)

/-! ### C10: connect clears the local subscription mirror -/

theorem handleIdAssignment_shape (st : ClientState) (bytes : List Nat) :
    handleIdAssignment st bytes = st ∨
    ∃ a rest, bytes = a :: rest ∧
      handleIdAssignment st bytes = { st with clientId := a, connected := true } := by
  cases bytes with
  | nil => exact Or.inl rfl
  | cons a rest =>
    simp only [handleIdAssignment]
    split
    · split
      · exact Or.inl rfl
      · split
        · exact Or.inl rfl
        · exact Or.inr ⟨a, rest, rfl, rfl⟩
    · exact Or.inr ⟨a, rest, rfl, rfl⟩

theorem handleSubscribeNotification_ok (st : ClientState) (bytes : List Nat)
    (hB : ∀ x, bytes.head? = some x → x ≠ CAN_PS_UNASSIGNED_ID)
    (hinv : ClientOkInv st) : ClientOkInv (handleSubscribeNotification st bytes) := by
  obtain ⟨hi1, hi2⟩ := hinv
  unfold handleSubscribeNotification
  split
  next cid h1 h2 z rest =>
    by_cases hc : cid ≠ st.clientId
    · simpa [hc] using ⟨hi1, hi2⟩
    · push_neg at hc
      have hcid : st.clientId ≠ CAN_PS_UNASSIGNED_ID := by
        rw [← hc]
        exact hB cid rfl
      simp only [hc, ne_eq, not_true_eq_false, if_false]
      constructor
      · intro h255
        have hsame : (if st.subscribedTopics.length < MAX_CLIENT_TOPICS then
            if (h1 <<< 8) ||| h2 ∈ st.subscribedTopics then st
            else { st with subscribedTopics := st.subscribedTopics ++ [(h1 <<< 8) ||| h2] }
          else st).clientId = st.clientId := by
          split_ifs <;> rfl
        rw [hsame] at h255
        exact absurd h255 hcid
      · intro hact
        have hsame : (if st.subscribedTopics.length < MAX_CLIENT_TOPICS then
            if (h1 <<< 8) ||| h2 ∈ st.subscribedTopics then st
            else { st with subscribedTopics := st.subscribedTopics ++ [(h1 <<< 8) ||| h2] }
          else st).extBuf = st.extBuf := by
          split_ifs <;> rfl
        rw [hsame] at hact ⊢
        exact hi2 hact
  next =>
    exact ⟨hi1, hi2⟩

theorem handleSubscriptionRestore_ok (st : ClientState) (bytes : List Nat)
    (hB : ∀ x, bytes.head? = some x → x ≠ CAN_PS_UNASSIGNED_ID)
    (hinv : ClientOkInv st) : ClientOkInv (handleSubscriptionRestore st bytes) := by
  obtain ⟨hi1, hi2⟩ := hinv
  unfold handleSubscriptionRestore
  split
  next cid h1 h2 z rest =>
    by_cases hc : cid ≠ st.clientId
    · simpa [hc] using ⟨hi1, hi2⟩
    · push_neg at hc
      have hcid : st.clientId ≠ CAN_PS_UNASSIGNED_ID := by
        rw [← hc]
        exact hB cid rfl
      simp only [hc, ne_eq, not_true_eq_false, if_false]
      constructor
      · intro h255
        have hsame : (if (h1 <<< 8) ||| h2 ∉ st.subscribedTopics ∧
              st.subscribedTopics.length < MAX_CLIENT_TOPICS then
            { st with subscribedTopics := st.subscribedTopics ++ [(h1 <<< 8) ||| h2] }
          else st).clientId = st.clientId := by
          split_ifs <;> rfl
        rw [hsame] at h255
        exact absurd h255 hcid
      · intro hact
        have hsame : (if (h1 <<< 8) ||| h2 ∉ st.subscribedTopics ∧
              st.subscribedTopics.length < MAX_CLIENT_TOPICS then
            { st with subscribedTopics := st.subscribedTopics ++ [(h1 <<< 8) ||| h2] }
          else st).extBuf = st.extBuf := by
          split_ifs <;> rfl
        rw [hsame] at hact ⊢
        exact hi2 hact
  next =>
    exact ⟨hi1, hi2⟩

theorem clientExtIdResponse_ok (st : ClientState) (senderId : Nat) (data : List Nat)
    (hS : senderId ≠ CAN_PS_UNASSIGNED_ID)
    (hinv : ClientOkInv st) : ClientOkInv (clientExtIdResponse st senderId data) := by
  obtain ⟨hi1, hi2⟩ := hinv
  unfold clientExtIdResponse
  split
  next d0 serialLen srest =>
    split
    · exact ⟨hi1, hi2⟩
    · exact ⟨fun h => absurd h hS, hi2⟩
  next =>
    exact ⟨hi1, hi2⟩

theorem clientExtSubAdd_ok (st : ClientState) (senderId : Nat) (data : List Nat)
    (hS : senderId ≠ CAN_PS_UNASSIGNED_ID)
    (hinv : ClientOkInv st) : ClientOkInv (clientExtSubAdd st senderId data) := by
  obtain ⟨hi1, hi2⟩ := hinv
  unfold clientExtSubAdd
  split
  next h1 h2 z rest =>
    by_cases hc : senderId ≠ st.clientId
    · simpa [hc] using ⟨hi1, hi2⟩
    · push_neg at hc
      have hcid : st.clientId ≠ CAN_PS_UNASSIGNED_ID := hc ▸ hS
      simp only [hc, ne_eq, not_true_eq_false, if_false]
      have hsame : ∀ (q : ClientState), q = (if st.subscribedTopics.length < MAX_CLIENT_TOPICS then
            if (h1 <<< 8) ||| h2 ∈ st.subscribedTopics then st
            else { st with subscribedTopics := st.subscribedTopics ++ [(h1 <<< 8) ||| h2] }
          else st) → q.clientId = st.clientId ∧ q.extBuf = st.extBuf := by
        intro q hq
        subst hq
        split_ifs <;> exact ⟨rfl, rfl⟩
      obtain ⟨hq1, hq2⟩ := hsame _ rfl
      constructor
      · intro h255
        rw [hq1] at h255
        exact absurd h255 hcid
      · intro hact
        rw [hq2] at hact ⊢
        exact hi2 hact
  next =>
    exact ⟨hi1, hi2⟩

theorem processExtendedFrame_sender_cases (now : Nat) (buf : ExtBuffer) (f : ExtFrame) :
    ((processExtendedFrame now buf f).1.active = true →
       ((processExtendedFrame now buf f).1.senderId = 0 ∨
        ((processExtendedFrame now buf f).1.senderId = buf.senderId ∧ buf.active = true) ∨
        (((f.extId >>> 13) &&& 0xFF) = 0 ∧
          f.data.head? = some (processExtendedFrame now buf f).1.senderId))) ∧
    (∀ m, (processExtendedFrame now buf f).2 = some m →
       (m.senderId = 0 ∨ (m.senderId = buf.senderId ∧ buf.active = true) ∨
        (((f.extId >>> 13) &&& 0xFF) = 0 ∧ f.data.head? = some m.senderId))) := by
  constructor
  · simp only [processExtendedFrame]
    repeat' split
    all_goals intro hact
    all_goals simp_all [emptyExtBuffer]
  · intro m hm
    simp only [processExtendedFrame] at hm
    repeat' split at hm
    all_goals try cases hm
    all_goals simp_all [emptyExtBuffer]

theorem processExtendedFrame_sender (now : Nat) (buf : ExtBuffer) (f : ExtFrame)
    (hbuf : buf.active = true → buf.senderId ≠ CAN_PS_UNASSIGNED_ID)
    (hf : FrameFirstByteOk (.ext f)) :
    ((processExtendedFrame now buf f).1.active = true →
      (processExtendedFrame now buf f).1.senderId ≠ CAN_PS_UNASSIGNED_ID) ∧
    (∀ m, (processExtendedFrame now buf f).2 = some m →
      m.senderId ≠ CAN_PS_UNASSIGNED_ID) := by
  unfold FrameFirstByteOk at hf
  obtain ⟨hc1, hc2⟩ := processExtendedFrame_sender_cases now buf f
  constructor
  · intro hact
    rcases hc1 hact with h | ⟨h, ha⟩ | ⟨h0, hh⟩
    · rw [h]
      simp [CAN_PS_UNASSIGNED_ID]
    · rw [h]
      exact hbuf ha
    · exact hf h0 _ hh
  · intro m hm
    rcases hc2 m hm with h | ⟨h, ha⟩ | ⟨h0, hh⟩
    · rw [h]
      simp [CAN_PS_UNASSIGNED_ID]
    · rw [h]
      exact hbuf ha
    · exact hf h0 _ hh

theorem clientOnExtendedMessageComplete_ok (st : ClientState) (m : CompletedMsg)
    (hS : m.senderId ≠ CAN_PS_UNASSIGNED_ID)
    (hinv : ClientOkInv st) : ClientOkInv (clientOnExtendedMessageComplete st m) := by
  unfold clientOnExtendedMessageComplete
  split_ifs with h1 h2 h3
  · exact clientExtIdResponse_ok st m.senderId m.data hS hinv
  · exact clientExtSubAdd_ok st m.senderId m.data hS hinv
  · exact clientExtSubAdd_ok st m.senderId m.data hS hinv
  · exact hinv

theorem clientHandleMessage_ok (now : Nat) (st : ClientState) (f : Frame)
    (hf : FrameFirstByteOk f) (hinv : ClientOkInv st) :
    ClientOkInv (clientHandleMessage now st f) := by
  obtain ⟨hi1, hi2⟩ := hinv
  cases f with
  | ext e =>
    have hs := processExtendedFrame_sender now st.extBuf e hi2 hf
    simp only [clientHandleMessage]
    cases hp : processExtendedFrame now st.extBuf e with
    | mk buf2 o =>
      rw [hp] at hs
      cases o with
      | none =>
        exact ⟨fun h => hi1 h, fun h => hs.1 h⟩
      | some m =>
        have hsend : m.senderId ≠ CAN_PS_UNASSIGNED_ID := hs.2 m rfl
        refine clientOnExtendedMessageComplete_ok _ m hsend ⟨fun h => hi1 h, fun h => hs.1 h⟩
  | std id data =>
    simp only [clientHandleMessage]
    split_ifs with h1 h2 h3
    · rcases handleIdAssignment_shape st data with h | ⟨a, rest, hdata, h⟩
      · rw [h]
        exact ⟨hi1, hi2⟩
      · rw [h]
        have ha : a ≠ CAN_PS_UNASSIGNED_ID := by
          apply hf
          rw [hdata]
          rfl
        exact ⟨fun hcl => absurd hcl ha, hi2⟩
    · exact handleSubscribeNotification_ok st data hf ⟨hi1, hi2⟩
    · exact handleSubscriptionRestore_ok st data hf ⟨hi1, hi2⟩
    · exact ⟨hi1, hi2⟩

theorem processUntilAssigned_ok (now : Nat) :
    ∀ (frames : List Frame) (st : ClientState),
      (∀ f ∈ frames, FrameFirstByteOk f) → ClientOkInv st →
      ClientOkInv (processUntilAssigned now st frames) := by
  intro frames
  induction frames with
  | nil => intro st _ hinv; exact hinv
  | cons f rest ih =>
    intro st hgood hinv
    simp only [processUntilAssigned]
    split
    · exact hinv
    · exact ih (clientHandleMessage now st f)
        (fun g hg => hgood g (List.mem_cons_of_mem f hg))
        (clientHandleMessage_ok now st f (hgood f (List.mem_cons_self f rest)) hinv)

theorem foldlHandle_ok (now : Nat) :
    ∀ (frames : List Frame) (st : ClientState),
      (∀ f ∈ frames, FrameFirstByteOk f) → ClientOkInv st →
      ClientOkInv (frames.foldl (clientHandleMessage now) st) := by
  intro frames
  induction frames with
  | nil => intro st _ hinv; exact hinv
  | cons f rest ih =>
    intro st hgood hinv
    exact ih (clientHandleMessage now st f)
      (fun g hg => hgood g (List.mem_cons_of_mem f hg))
      (clientHandleMessage_ok now st f (hgood f (List.mem_cons_self f rest)) hinv)

/-- C10 (amended): both `connect` overloads clear the local subscription
list before sending the ID request — so the outcome never depends on what
the client was subscribed to before the call — and, provided no frame
handled during the wait carries the unassigned id `0xFF` as its first
payload byte (and no pre-existing reassembly is tagged with it), a `connect`
that fails still leaves the client with zero local subscriptions.  Without
that proviso the claim fails: frames addressed to `0xFF` (e.g. a
`SUB_RESTORE` whose clientId byte is `0xFF`) are accepted while the client
still holds the unassigned id — see the counterexample. -/
theorem c10_connect_clears_subscriptions (st : ClientState) (frames : List Frame)
    (serial : List Nat)
    (hgood : ∀ f ∈ frames, FrameFirstByteOk f)
    (hbuf : st.extBuf.active = true → st.extBuf.senderId ≠ CAN_PS_UNASSIGNED_ID) :
    ((clientConnect st frames).1 = false →
       (clientConnect st frames).2.subscribedTopics = []) ∧
    ((clientConnectWithSerial serial st frames).1 = false →
       (clientConnectWithSerial serial st frames).2.subscribedTopics = []) ∧
    (∀ xs, clientConnect { st with subscribedTopics := xs } frames =
       clientConnect st frames) ∧
    (∀ xs, clientConnectWithSerial serial { st with subscribedTopics := xs } frames =
       clientConnectWithSerial serial st frames) := by
  refine ⟨?_, ?_, fun xs => rfl, fun xs => rfl⟩
  · intro hfail
    have hinv : ClientOkInv (processUntilAssigned 0
        { st with subscribedTopics := [] } frames) :=
      processUntilAssigned_ok 0 frames { st with subscribedTopics := [] } hgood
        ⟨fun _ => rfl, hbuf⟩
    by_cases hcond : (processUntilAssigned 0 { st with subscribedTopics := [] }
        frames).clientId ≠ CAN_PS_UNASSIGNED_ID
    · exfalso
      simp only [clientConnect, if_pos hcond] at hfail
      exact absurd hfail (by decide)
    · push_neg at hcond
      have h2 := hinv.1 hcond
      simp only [clientConnect, hcond, ne_eq, not_true_eq_false, if_false]
      exact h2
  · intro hfail
    have hinv : ClientOkInv (frames.foldl (clientHandleMessage 0)
        { st with subscribedTopics := [], serialNumber := serial }) :=
      foldlHandle_ok 0 frames { st with subscribedTopics := [], serialNumber := serial }
        hgood ⟨fun _ => rfl, hbuf⟩
    by_cases hcond : (frames.foldl (clientHandleMessage 0)
        { st with subscribedTopics := [], serialNumber := serial }).clientId ≠
          CAN_PS_UNASSIGNED_ID
    · exfalso
      simp only [clientConnectWithSerial, if_pos hcond] at hfail
      exact absurd hfail (by decide)
    · push_neg at hcond
      have h2 := hinv.1 hcond
      simp only [clientConnectWithSerial, hcond, ne_eq, not_true_eq_false, if_false]
      exact h2

/-- C10 counterexample to the claim as stated: during a connect that fails
(no id is ever assigned), a `SUB_RESTORE` frame whose clientId byte is the
unassigned id `0xFF` matches the client's current `_clientId` and appends a
topic — the failed `connect` returns with a non-empty local list. -/
theorem c10_connect_counterexample :
    (clientConnect ⟨255, false, [], [1, 2], emptyExtBuffer⟩
        [Frame.std CAN_PS_SUB_RESTORE [255, 0, 3, 0]]).1 = false ∧
    (clientConnect ⟨255, false, [], [1, 2], emptyExtBuffer⟩
        [Frame.std CAN_PS_SUB_RESTORE [255, 0, 3, 0]]).2.subscribedTopics = [3] := by
  decide

/-- C10 witness: the amended theorem at a concrete pre-subscribed client
whose connect window sees no frames. -/
theorem c10_connect_clears_witness :
    (clientConnect ⟨255, false, [], [7, 9], emptyExtBuffer⟩ []).2.subscribedTopics = [] :=
  (c10_connect_clears_subscriptions ⟨255, false, [], [7, 9], emptyExtBuffer⟩ [] [65]
    (by intro f hf; simp at hf) (by decide)).1 (by decide)
